import Mathlib

/-!
Verification of the higherdust swap orchestration engine.

The development shallowly embeds the swap pipeline of the single page
component (`handleSwap`, `approveToken`, `checkAllowance`,
`buildConsistentArrays`, `validateArrayConsistency`,
`verifyNetworkAndContract`, `decodeErrorSignature` and the quote / gas /
swap submission stages).  Token balances arrive as decimal strings from
the discovery service; a string is embedded by its parsed numeric
content (`NumVal`).  All big-integer arithmetic of the source uses
JavaScript `BigInt`, whose division truncates toward zero; every
division in the embedded pipeline is applied to non-negative operands,
where Lean integer division agrees with it.  The source converts
`balanceWei` through `Number` before dividing by 10000; `Number` is
exact below 2^53, and the embedding uses exact integer division
(all concrete inputs considered are far below 2^53).

The on-chain world is a parameter (`Env`): the token snapshot, the
on-chain allowance at run start, quote results, the wallet decision on
each approval prompt, gas estimation and submission outcomes, and one
read oracle per allowance-reading loop of the run.  The oracles model
`checkAllowance` faithfully: each call is a fresh on-chain read through
the transport layer, whose result may be current, stale (a transaction
submitted moments earlier and not yet mined — the source waits only
fixed `setTimeout` delays before re-reading), or zero, because the
`catch` of `checkAllowance` swallows every read failure and returns
`BigInt(0)`.  Nothing ties an oracle to the starting allowance or to
the approvals submitted earlier in the run; theorems therefore hold for
every such behaviour, and counterexamples pick realistic ones (a stale
or failed read).  `writeContract` from the wagmi hook is fire-and-forget
(its promise resolves without the transaction result), so a wallet
rejection does not throw inside `approveToken`: the run continues and no
transaction reaches the chain.

A run of `handleSwap` returns the ordered trace of on-chain
interactions it performed (allowance reads, approval submissions, quote
reads, the bulk quote, the gas estimate dry run and the swap
submission) together with its outcome.

A run of `handleSwap` returns the ordered trace of on-chain
interactions it performed (allowance reads, approval submissions, quote
reads, the bulk quote, the gas estimate dry run and the swap
submission) together with its outcome.
-/

namespace HigherDust

instance {ε α : Type} [DecidableEq ε] [DecidableEq α] : DecidableEq (Except ε α) :=
  fun x y =>
    match x, y with
    | .error a, .error b =>
      if h : a = b then isTrue (by rw [h])
      else isFalse (by intro hc; cases hc; exact h rfl)
    | .ok a, .ok b =>
      if h : a = b then isTrue (by rw [h])
      else isFalse (by intro hc; cases hc; exact h rfl)
    | .error _, .ok _ => isFalse (by intro hc; cases hc)
    | .ok _, .error _ => isFalse (by intro hc; cases hc)

/-- Parsed numeric content of a balance string, as JavaScript
`parseFloat` sees it: not a number, an infinity, or a finite decimal
`mantissa / 10 ^ scale` with an explicit sign. -/
inductive NumVal where
  | nan
  | posInf
  | negInf
  | fin (neg : Bool) (mantissa : Nat) (scale : Nat)
deriving DecidableEq, Repr

/-- `isNaN(parseFloat(s))`. -/
def NumVal.isNaNv : NumVal → Bool
  | .nan => true
  | _ => false

/-- `parseFloat(s) <= 0` (false on NaN, true on negative infinity). -/
def NumVal.leZero : NumVal → Bool
  | .nan => false
  | .posInf => false
  | .negInf => true
  | .fin neg m _ => m = 0 || neg

/-- `parseFloat(s) === 0` (false on NaN and infinities; `-0 === 0`). -/
def NumVal.eqZero : NumVal → Bool
  | .fin _ m _ => m = 0
  | _ => false

/-- Magnitude of `parseUnits` on a finite decimal `m / 10 ^ k` with `d`
token decimals.  When the fraction is longer than `d`, viem rounds
half-up on the first dropped digit. -/
def parseUnitsMag (m k d : Nat) : Nat :=
  if k ≤ d then m * 10 ^ (d - k)
  else (m + 5 * 10 ^ (k - d - 1)) / 10 ^ (k - d)

/-- viem `parseUnits`: scales a decimal string to the token smallest
unit; throws (`none`) on strings that do not parse as a decimal number
(NaN, infinities). -/
def parseUnitsNum : NumVal → Nat → Option Int
  | .fin neg m k, d =>
      let mag := parseUnitsMag m k d
      some (if neg then -(mag : Int) else (mag : Int))
  | _, _ => none

/-- A TokenRecord from the discovery service.  `balanceFormatted` is
`none` when the field is absent or the empty string (both falsy in the
source), otherwise the parsed content of the nonempty string. -/
structure Token where
  address : String
  symbol : String
  decimals : Nat
  balanceFormatted : Option NumVal
deriving DecidableEq, Repr

/-- `toLowerCase` on an address string. -/
def lower (s : String) : String := s.map Char.toLower

/-- `parseFloat(token.balanceFormatted || '0')`: the missing or empty
string falls back to the string `'0'`. -/
def parsedBalance (t : Token) : NumVal :=
  t.balanceFormatted.getD (.fin false 0 1)

/-- `parseUnits(token.balanceFormatted || '0', token.decimals)`. -/
def balanceWeiOf (t : Token) : Option Int :=
  parseUnitsNum (parsedBalance t) t.decimals

/-- Lines 677 and 846: `BigInt(Math.floor(Number(balanceWei) / 10000)) ||
BigInt(100000)` — the 100000 wei fallback applies only when the division
yields zero, since `0n` is the only falsy bigint. -/
def guardBuffer (balanceWei : Int) : Int :=
  if balanceWei / 10000 = 0 then 100000 else balanceWei / 10000

/-- The guard-buffer formula the specification states instead:
`max(balance / 10000, fixedMinimumWei)` with the fixed minimum 100000
wei.  Kept separate so the two can be compared. -/
def specGuardBuffer (balanceWei : Int) : Int :=
  max (balanceWei / 10000) 100000

/-- Errors a pipeline run can terminate with (the distinct `throw`
sites of the source, identified by their message). -/
inductive SwapError where
  | missingContractOrWallet
  | tokenNotFound (addr : String)
  | invalidBalance (sym : String)
  | balanceParseError (sym : String)
  | arrayLengthMismatch
  | arrayAddressMismatch (i : Nat)
  | noBalanceForApproval (addr : String)
  | approvalFailed (addr : String)
  | dustTooSmallToken (sym : String)
  | dustTooSmallTotal
  | amountExceedsBalance (sym : String)
  | higherToHigher
  | gasEstimationFailed
  | swapSubmissionFailed
deriving DecidableEq, Repr

/-- On-chain interactions a run performs, in order. -/
inductive Event where
  | allowanceRead (token : String) (result : Int)
  | approvalTx (token : String) (amount : Int)
  | quoteCall (token : String) (amountIn : Int) (result : Nat)
  | bulkQuoteCall (total : Nat)
  | gasEstimateCall
  | swapTxSubmit (addresses : List String) (amounts : List Int) (minReceive : Int)
deriving DecidableEq, Repr

/-- Outcome of one invocation of `handleSwap`. -/
inductive Outcome where
  | notStarted
  | failed (e : SwapError)
  | submitted
deriving DecidableEq, Repr

/-- Trace and outcome of one pipeline run. -/
structure RunResult where
  trace : List Event
  outcome : Outcome
deriving DecidableEq, Repr

/-- The external world of one run: connection state, the chain, the
token snapshot, the on-chain allowance for the router spender at run
start, one `checkAllowance` result oracle per allowance-reading loop of
the run, the wallet decision on each approval prompt, router quotes,
and whether gas estimation and swap submission succeed.
`allowance0` is the actual on-chain state when the run begins; the
three oracles are what the `checkAllowance` calls of the three loops
return, which the code in no way ties to that state or to the approvals
it submitted earlier: a read may be current, stale with respect to a
just-submitted approval transaction (the code waits only a fixed
`setTimeout` before re-reading), or `0`, because the `catch` of
`checkAllowance` turns every read failure into `BigInt(0)`. -/
structure Env where
  isConnected : Bool
  chainId : Nat
  hasRouter : Bool
  hasAddress : Bool
  dustTokens : List Token
  allowance0 : String → Int
  allowanceRead1 : String → Int
  allowanceReadLog : String → Int
  allowanceRead2 : String → Int
  approveOk : String → Bool
  quote : String → Int → Nat
  bulkQuoteTotal : List String → List Int → Nat
  higherToken : String
  gasOk : Bool
  swapOk : Bool

/-- Lines 200-244, `verifyNetworkAndContract`: accepts exactly chain
identifiers 8453 (Base mainnet) and 84532 (Base Sepolia), then requires
the router address to resolve to deployed code (`getCode` neither
missing nor the empty `0x`). -/
def verifyNetworkAndContract (chainId : Nat) (contractCode : Option String) : Bool :=
  if chainId ≠ 8453 ∧ chainId ≠ 84532 then false
  else
    match contractCode with
    | none => false
    | some code => if code = "" ∨ code = "0x" then false else true

/-- Lines 249-427, `approveToken`: the value actually submitted to the
token `approve` call.  The function looks the token up in `dustTokens`,
throws when the token or its balance is missing or the balance parses
to exactly zero, computes `balanceWei = parseUnits(balanceFormatted,
decimals)` and `bufferAmount = balanceWei * 1001n / 1000n`, and then
reassigns `amount = bufferAmount` (line 281), so the `amount` argument
never reaches the transaction. -/
def approveTokenSubmitAmount (dustTokens : List Token) (tokenAddress : String)
    (amount : Int) : Except SwapError Int :=
  match dustTokens.find? (fun t => t.address = tokenAddress) with
  | none => .error (.noBalanceForApproval tokenAddress)
  | some t =>
    match t.balanceFormatted with
    | none => .error (.noBalanceForApproval tokenAddress)
    | some bf =>
      if bf.eqZero then .error (.noBalanceForApproval tokenAddress)
      else
        match parseUnitsNum bf t.decimals with
        | none => .error (.balanceParseError t.symbol)
        | some balanceWei =>
          let bufferAmount := balanceWei * 1001 / 1000
          let amount := bufferAmount
          .ok amount

/-- Lines 671-683 of `buildConsistentArrays`, per selected token: reject
the balance when `isNaN(parseFloat(...)) || parseFloat(...) <= 0`, then
scale it with `parseUnits` and subtract the safety reduction. -/
def computeSafeAmount (t : Token) : Except SwapError Int :=
  if (parsedBalance t).isNaNv || (parsedBalance t).leZero then
    .error (.invalidBalance t.symbol)
  else
    match parseUnitsNum (parsedBalance t) t.decimals with
    | none => .error (.balanceParseError t.symbol)
    | some balanceWei => .ok (balanceWei - guardBuffer balanceWei)

/-- One row of the plan: the resolved TokenRecord, the selection address
it was resolved from, and the computed spend amount. -/
structure PlanEntry where
  token : Token
  address : String
  amount : Int
deriving DecidableEq, Repr

/-- Line 171: `selectedTokensData = dustTokens.filter(token =>
selectedTokens.includes(token.address))`. -/
def selectedTokensData (dustTokens : List Token) (sel : List String) : List Token :=
  dustTokens.filter (fun t => sel.contains t.address)

/-- Lines 664-685, body of the single `forEach` loop: resolve the
TokenRecord for one selected address (strict equality find), validate
its balance, and compute the safe amount. -/
def buildEntry (std : List Token) (a : String) : Except SwapError PlanEntry :=
  match std.find? (fun t => t.address = a) with
  | none => .error (.tokenNotFound a)
  | some tok =>
    match computeSafeAmount tok with
    | .error e => .error e
    | .ok amt => .ok ⟨tok, a, amt⟩

/-- Effectful map over a list that stops at the first failure, the way
the `forEach` loop propagates its first `throw`. -/
def mapME (f : α → Except SwapError β) : List α → Except SwapError (List β)
  | [] => .ok []
  | a :: l =>
    match f a with
    | .error e => .error e
    | .ok b =>
      match mapME f l with
      | .error e => .error e
      | .ok bs => .ok (b :: bs)

/-- The three parallel output collections of `buildConsistentArrays`. -/
structure BuiltArrays where
  tokenData : List Token
  addresses : List String
  amounts : List Int
deriving DecidableEq, Repr

/-- Lines 656-689, `buildConsistentArrays`: one loop in selection order
fills the three arrays at the same index. -/
def buildConsistentArrays (dustTokens : List Token) (sel : List String) :
    Except SwapError BuiltArrays :=
  match mapME (buildEntry (selectedTokensData dustTokens sel)) sel with
  | .error e => .error e
  | .ok entries =>
      .ok ⟨entries.map (·.token), entries.map (·.address), entries.map (·.amount)⟩

/-- Index-wise alignment walk of `validateArrayConsistency`
(lines 714-724): compare `token.address.toLowerCase()` with
`addresses[i].toLowerCase()` at every index. -/
def checkAligned : List Token → List String → Nat → Except SwapError Unit
  | [], _, _ => .ok ()
  | _ :: _, [], _ => .ok ()
  | t :: ts, a :: as_, i =>
      if lower t.address = lower a then checkAligned ts as_ (i + 1)
      else .error (.arrayAddressMismatch i)

/-- Lines 708-726, `validateArrayConsistency` (the identical alignment
walk `verifyArrayConsistency` of lines 692-705 is run right after it and
can only repeat the same verdict): length equality of the three arrays,
then case-insensitive address agreement at every index. -/
def validateArrayConsistency (tokens : List Token) (addresses : List String)
    (amounts : List Int) : Except SwapError Unit :=
  if tokens.length ≠ addresses.length ∨ addresses.length ≠ amounts.length then
    .error .arrayLengthMismatch
  else checkAligned tokens addresses 0

/-- Lines 738-759, STEP 2: the `Promise.all` approval pass.  Each
element calls `checkAllowance` — its result is the pass-1 read oracle
`allowanceRead1`: current, stale, or the `BigInt(0)` of the `catch` —
and, when the result is below the required amount, calls `approveToken`
with the required amount (which `approveToken` then ignores, see
`approveTokenSubmitAmount`).  Only `approveToken`'s own validation
(missing or zero balance, unit-parse failure) can throw: the `await
writeContract(...)` of the wagmi mutation resolves as soon as the
request is dispatched, so a wallet rejection raises nothing — the run
continues and merely no transaction reaches the chain (`approveOk`
false yields no `approvalTx` event and no abort).  The promises of
distinct tokens are independent; the embedding lists their events in
plan order. -/
def pass1 (env : Env) : List (Token × Int) → List Event × Except SwapError Unit
  | [] => ([], .ok ())
  | (t, required) :: rest =>
    if env.allowanceRead1 t.address < required then
      match approveTokenSubmitAmount env.dustTokens t.address required with
      | .error e =>
        ([.allowanceRead t.address (env.allowanceRead1 t.address)], .error e)
      | .ok amt =>
        if env.approveOk t.address then
          (.allowanceRead t.address (env.allowanceRead1 t.address) ::
            .approvalTx t.address amt :: (pass1 env rest).1, (pass1 env rest).2)
        else
          (.allowanceRead t.address (env.allowanceRead1 t.address) ::
            (pass1 env rest).1, (pass1 env rest).2)
    else
      (.allowanceRead t.address (env.allowanceRead1 t.address) ::
        (pass1 env rest).1, (pass1 env rest).2)

/-- Lines 777-781: the logging pass that calls `checkAllowance` once
more per token (its own oracle `allowanceReadLog`: every call is a
fresh read through the transport layer). -/
def logReads (env : Env) (ts : List Token) : List Event :=
  ts.map (fun t => .allowanceRead t.address (env.allowanceReadLog t.address))

/-- Lines 786-799: the sequential re-check that collects
`tokensNeedingApproval`.  Each iteration is yet another fresh
`checkAllowance` call (oracle `allowanceRead2`): a read that is stale
with respect to an approval submitted moments earlier, or that failed
and fell back to `BigInt(0)`, re-collects a token the first pass
already handled. -/
def scanNeeding (env : Env) : List (Token × Int) → List Event × List (Token × Int)
  | [] => ([], [])
  | (t, amt) :: rest =>
    (.allowanceRead t.address (env.allowanceRead2 t.address) :: (scanNeeding env rest).1,
     if env.allowanceRead2 t.address < amt then (t, amt) :: (scanNeeding env rest).2
     else (scanNeeding env rest).2)

/-- Lines 813-829: sequential approval of the collected tokens.  The
loop computes `bufferAmount = amount * 1001n / 1000n` and passes it to
`approveToken`, which discards it (`approveTokenSubmitAmount`); as in
the first pass, only `approveToken`'s own validation can throw, and a
wallet rejection neither throws nor puts a transaction on chain. -/
def pass2Approve (env : Env) : List (Token × Int) → List Event × Except SwapError Unit
  | [] => ([], .ok ())
  | (t, amt) :: rest =>
    match approveTokenSubmitAmount env.dustTokens t.address (amt * 1001 / 1000) with
    | .error e => ([], .error e)
    | .ok amt1 =>
      if env.approveOk t.address then
        (.approvalTx t.address amt1 :: (pass2Approve env rest).1,
         (pass2Approve env rest).2)
      else ((pass2Approve env rest).1, (pass2Approve env rest).2)

/-- Lines 737-829: the whole approval stage of a run. -/
def approvalStage (env : Env) (tokenData : List Token) (amounts : List Int) :
    List Event × Except SwapError Unit :=
  match (pass1 env (tokenData.zip amounts)).2 with
  | .error e => ((pass1 env (tokenData.zip amounts)).1, .error e)
  | .ok _ =>
    ((pass1 env (tokenData.zip amounts)).1 ++ logReads env tokenData ++
      (scanNeeding env (tokenData.zip amounts)).1 ++
      (pass2Approve env (scanNeeding env (tokenData.zip amounts)).2).1,
     (pass2Approve env (scanNeeding env (tokenData.zip amounts)).2).2)

/-- Lines 832-867, per token: recompute `balanceWei` and the dynamic
buffer from the same snapshot, clamp the amount to
`balanceWei - dynamicBuffer`, and abort when the (pre-clamp) amount
exceeds the balance. -/
def balanceCheckEntry (t : Token) (amt : Int) : Except SwapError Int :=
  match balanceWeiOf t with
  | none => .error (.balanceParseError t.symbol)
  | some balanceWei =>
    let dynamicBuffer := guardBuffer balanceWei
    let maxSwappable := balanceWei - dynamicBuffer
    let amt1 := if maxSwappable < amt then maxSwappable else amt
    if balanceWei < amt then .error (.amountExceedsBalance t.symbol)
    else .ok amt1

/-- Lines 831-867: the balance re-validation loop over the plan. -/
def balanceCheckPhase : List (Token × Int) → Except SwapError (List Int)
  | [] => .ok []
  | (t, amt) :: rest =>
    match balanceCheckEntry t amt with
    | .error e => .error e
    | .ok amt1 =>
      match balanceCheckPhase rest with
      | .error e => .error e
      | .ok amts => .ok (amt1 :: amts)

/-- Lines 973-1001, Step 1 of the swap validation: one `getSwapQuote`
read per token; a zero quote throws (the token amount is too small for
the router to price). -/
def quotePhase (env : Env) : List (Token × Int) → List Event × Except SwapError (List Nat)
  | [] => ([], .ok [])
  | (t, amt) :: rest =>
    let q := env.quote t.address amt
    if q = 0 then ([.quoteCall t.address amt q], .error (.dustTooSmallToken t.symbol))
    else
      let tail := quotePhase env rest
      (.quoteCall t.address amt q :: tail.1,
       match tail.2 with
       | .error e => .error e
       | .ok qs => .ok (q :: qs))

/-- Line 1033: `minReceiveWei = (totalQuote * 90n) / 100n`. -/
def minReceiveCalc (totalQuote : Nat) : Nat :=
  totalQuote * 90 / 100

/-- The slippage formula as the specification states it, in basis
points: `aggregateQuote * (10000 - slippageToleranceBps) / 10000`. -/
def specMinReceive (aggregateQuote slippageToleranceBps : Nat) : Nat :=
  aggregateQuote * (10000 - slippageToleranceBps) / 10000

/-- Lines 1126-1190: the HIGHER-to-HIGHER guard, the
`estimateContractGas` dry run of `executeBulkSwap`, and the
`writeContract` swap submission (pinned to chain 8453). -/
def execStage (env : Env) (addresses : List String) (amounts : List Int)
    (minReceive : Int) : List Event × Outcome :=
  if addresses.any (fun a => lower a = lower env.higherToken) then
    ([], .failed .higherToHigher)
  else if env.gasOk then
    if env.swapOk then
      ([.gasEstimateCall, .swapTxSubmit addresses amounts minReceive], .submitted)
    else ([.gasEstimateCall], .failed .swapSubmissionFailed)
  else ([.gasEstimateCall], .failed .gasEstimationFailed)

/-- Lines 969-1190: quote validation (per token, then the bulk quote),
the minReceive computation, and the execution tail. -/
def quoteStage (env : Env) (tokenData : List Token) (addresses : List String)
    (amounts : List Int) : List Event × Outcome :=
  let qp := quotePhase env (tokenData.zip amounts)
  match qp.2 with
  | .error e => (qp.1, .failed e)
  | .ok _qs =>
    let total := env.bulkQuoteTotal addresses amounts
    if total = 0 then (qp.1 ++ [.bulkQuoteCall total], .failed .dustTooSmallTotal)
    else
      let ex := execStage env addresses amounts (minReceiveCalc total : Int)
      (qp.1 ++ [.bulkQuoteCall total] ++ ex.1, ex.2)

/-- Lines 600-1221, `handleSwap`: the full pipeline run.  Note that
`verifyNetworkAndContract` is nowhere in this flow (it is wired only to
a manual UI button, line 1267); the run branches on `env.chainId`
nowhere. -/
def handleSwap (env : Env) (selectedTokens : List String) : RunResult :=
  if !env.isConnected || selectedTokens.isEmpty then ⟨[], .notStarted⟩
  else if !env.hasRouter || !env.hasAddress then
    ⟨[], .failed .missingContractOrWallet⟩
  else
    match buildConsistentArrays env.dustTokens selectedTokens with
    | .error e => ⟨[], .failed e⟩
    | .ok arrs =>
      match validateArrayConsistency arrs.tokenData arrs.addresses arrs.amounts with
      | .error e => ⟨[], .failed e⟩
      | .ok _ =>
        match (approvalStage env arrs.tokenData arrs.amounts).2 with
        | .error e => ⟨(approvalStage env arrs.tokenData arrs.amounts).1, .failed e⟩
        | .ok _ =>
          match balanceCheckPhase (arrs.tokenData.zip arrs.amounts) with
          | .error e => ⟨(approvalStage env arrs.tokenData arrs.amounts).1, .failed e⟩
          | .ok amounts1 =>
            ⟨(approvalStage env arrs.tokenData arrs.amounts).1 ++
              (quoteStage env arrs.tokenData arrs.addresses amounts1).1,
             (quoteStage env arrs.tokenData arrs.addresses amounts1).2⟩

/-! Generic helper lemmas. -/

theorem approveTokenSubmitAmount_const (d : List Token) (a : String) (x y : Int) :
    approveTokenSubmitAmount d a x = approveTokenSubmitAmount d a y := rfl

theorem parseUnitsNum_nonneg {v : NumVal} {d : Nat} {B : Int}
    (hz : v.leZero = false) (h : parseUnitsNum v d = some B) :
    ∃ n : Nat, B = (n : Int) := by
  cases v with
  | fin neg m k =>
    simp only [NumVal.leZero, Bool.or_eq_false_iff, decide_eq_false_iff_not] at hz
    obtain ⟨_, hneg⟩ := hz
    subst hneg
    simp only [parseUnitsNum, Bool.false_eq_true, if_false, Option.some_inj] at h
    exact ⟨_, h.symm⟩
  | nan => simp [parseUnitsNum] at h
  | posInf => simp [parseUnitsNum] at h
  | negInf => simp [parseUnitsNum] at h

theorem guardBuffer_pos {B : Int} (hB : 0 ≤ B) : 0 < guardBuffer B := by
  unfold guardBuffer
  split <;> omega

theorem computeSafeAmount_ok {t : Token} {amt : Int}
    (h : computeSafeAmount t = .ok amt) :
    ∃ B : Nat, balanceWeiOf t = some (B : Int) ∧
      amt = (B : Int) - guardBuffer (B : Int) := by
  unfold computeSafeAmount at h
  split at h
  · cases h
  · rename_i hcond
    rw [Bool.or_eq_true, not_or] at hcond
    split at h
    · cases h
    · rename_i B hpu
      obtain ⟨n, rfl⟩ :=
        parseUnitsNum_nonneg (Bool.eq_false_iff.mpr hcond.2) hpu
      cases h
      exact ⟨n, hpu, rfl⟩

theorem buildEntry_ok {std : List Token} {a : String} {e : PlanEntry}
    (h : buildEntry std a = .ok e) :
    std.find? (fun t => t.address = a) = some e.token ∧ e.address = a ∧
      computeSafeAmount e.token = .ok e.amount := by
  unfold buildEntry at h
  split at h
  · cases h
  · rename_i t hf
    split at h
    · cases h
    · rename_i amt hc
      cases h
      exact ⟨hf, rfl, hc⟩

theorem mapME_ok_iff {α β : Type} {f : α → Except SwapError β} :
    ∀ {l : List α} {bs : List β},
      mapME f l = .ok bs ↔ List.Forall₂ (fun a b => f a = .ok b) l bs := by
  intro l
  induction l with
  | nil =>
    intro bs
    constructor
    · intro h
      simp only [mapME, Except.ok.injEq] at h
      subst h
      exact List.Forall₂.nil
    · intro h
      cases h
      rfl
  | cons a l ih =>
    intro bs
    constructor
    · intro h
      simp only [mapME] at h
      cases hfa : f a with
      | error e => rw [hfa] at h; cases h
      | ok b =>
        rw [hfa] at h
        cases hml : mapME f l with
        | error e => rw [hml] at h; cases h
        | ok bs0 =>
          rw [hml] at h
          cases h
          exact List.Forall₂.cons hfa (ih.mp hml)
    · intro h
      cases h with
      | cons hab htl =>
        simp only [mapME, hab]
        rw [ih.mpr htl]

theorem forall₂_get? {α β : Type} {R : α → β → Prop} :
    ∀ {l₁ : List α} {l₂ : List β}, List.Forall₂ R l₁ l₂ →
      ∀ {i : Nat} {b : β}, l₂.get? i = some b → ∃ a, l₁.get? i = some a ∧ R a b := by
  intro l₁ l₂ h
  induction h with
  | nil => intro i b hb; simp at hb
  | cons hab htl ih =>
    intro i b hb
    cases i with
    | zero =>
      simp only [List.get?_cons_zero, Option.some_inj] at hb
      subst hb
      exact ⟨_, rfl, hab⟩
    | succ n =>
      simp only [List.get?_cons_succ] at hb ⊢
      exact ih hb

theorem find?_filter_keep (p : Token → Bool) {l : List Token} {a : String}
    (hp : ∀ t : Token, t.address = a → p t = true) :
    (l.filter p).find? (fun t => t.address = a) =
      l.find? (fun t => t.address = a) := by
  induction l with
  | nil => rfl
  | cons t l ih =>
    by_cases ha : t.address = a
    · rw [List.filter_cons_of_pos (hp t ha),
        List.find?_cons_of_pos _ (by simpa using ha),
        List.find?_cons_of_pos _ (by simpa using ha)]
    · cases hpl : p t with
      | true =>
        rw [List.filter_cons_of_pos hpl,
          List.find?_cons_of_neg _ (by simpa using ha),
          List.find?_cons_of_neg _ (by simpa using ha), ih]
      | false =>
        rw [List.filter_cons_of_neg (by simp [hpl]),
          List.find?_cons_of_neg _ (by simpa using ha), ih]

theorem map_eq_of_forall₂ {α β : Type} (f : β → α) {l1 : List α} {l2 : List β}
    (h : List.Forall₂ (fun a e => f e = a) l1 l2) : l2.map f = l1 := by
  induction h with
  | nil => rfl
  | cons hab htl ih => simp [ih, hab]

/-- Pointwise characterization of a successful `buildConsistentArrays`:
the address array is the selection itself, the three arrays have the
length of the selection, and at every index the token record comes from
`buildEntry` on the selection address. -/
theorem build_ok_spec {dust : List Token} {sel : List String} {arrs : BuiltArrays}
    (hb : buildConsistentArrays dust sel = .ok arrs) :
    arrs.addresses = sel ∧
    arrs.tokenData.map (·.address) = sel ∧
    arrs.tokenData.length = sel.length ∧
    arrs.amounts.length = sel.length ∧
    (∀ i t r, arrs.tokenData.get? i = some t → arrs.amounts.get? i = some r →
      ∃ a, sel.get? i = some a ∧ t.address = a ∧
        buildEntry (selectedTokensData dust sel) a = .ok ⟨t, a, r⟩) := by
  unfold buildConsistentArrays at hb
  split at hb
  · cases hb
  · rename_i entries hmap
    cases hb
    have hf2 := mapME_ok_iff.mp hmap
    have hlen : entries.length = sel.length := hf2.length_eq.symm
    refine ⟨?_, ?_, by simpa using hlen, by simpa using hlen, ?_⟩
    · exact map_eq_of_forall₂ _ (hf2.imp (fun _ _ hab => (buildEntry_ok hab).2.1))
    · have hmm : (entries.map (·.token)).map (·.address) =
          entries.map (fun e => e.token.address) := by
        simp [List.map_map, Function.comp]
      rw [show (List.map (·.token) entries : List Token).map (·.address) =
          entries.map (fun e => e.token.address) from hmm]
      refine map_eq_of_forall₂ _ (hf2.imp (fun a e hab => ?_))
      have := List.find?_some (buildEntry_ok hab).1
      simpa using this
    · intro i t r ht hr
      rw [List.get?_map] at ht hr
      cases he : entries.get? i with
      | none => rw [he] at ht; cases ht
      | some e =>
        rw [he] at ht hr
        cases ht
        cases hr
        obtain ⟨a, ha, hbe⟩ := forall₂_get? hf2 he
        obtain ⟨hfind, haddr, _⟩ := buildEntry_ok hbe
        have htok : e.token.address = a := by
          have := List.find?_some hfind
          simpa using this
        refine ⟨a, ha, htok, ?_⟩
        have heq : e = ⟨e.token, a, e.amount⟩ := by
          cases e with
          | mk tk ad am =>
            simp only at haddr
            subst haddr
            rfl
        rw [← heq]
        exact hbe

/-! Event classifiers and the approval counter. -/

def Event.isApprovalFor (a : String) : Event → Bool
  | .approvalTx x _ => x = a
  | _ => false

def Event.isReadOrApproval : Event → Bool
  | .allowanceRead _ _ => true
  | .approvalTx _ _ => true
  | _ => false

def Event.isQuoteCall : Event → Bool
  | .quoteCall _ _ _ => true
  | _ => false

def Event.isGasOrSwap : Event → Bool
  | .gasEstimateCall => true
  | .swapTxSubmit _ _ _ => true
  | _ => false

/-- Number of approval transactions for token `a` in a trace. -/
def approvalCount (a : String) (tr : List Event) : Nat :=
  (tr.filter (Event.isApprovalFor a)).length

theorem approvalCount_append (a : String) (l1 l2 : List Event) :
    approvalCount a (l1 ++ l2) = approvalCount a l1 + approvalCount a l2 := by
  simp [approvalCount, List.filter_append]

theorem approvalCount_eq_zero {a : String} {tr : List Event}
    (h : ∀ e ∈ tr, Event.isApprovalFor a e = false) :
    approvalCount a tr = 0 := by
  simp only [approvalCount, List.length_eq_zero]
  exact List.filter_eq_nil.mpr (by simpa using h)

/-! Trace shape of each phase. -/

theorem pass1_shape (env : Env) :
    ∀ (plan : List (Token × Int)),
      ∀ e ∈ (pass1 env plan).1, e.isReadOrApproval = true := by
  intro plan
  induction plan with
  | nil => intro e he; simp [pass1] at he
  | cons hd rest ih =>
    obtain ⟨t, required⟩ := hd
    intro e he
    simp only [pass1] at he
    split at he
    · split at he
      · simp only [List.mem_singleton] at he
        subst he; rfl
      · split at he
        · simp only [List.mem_cons] at he
          rcases he with rfl | rfl | he
          · rfl
          · rfl
          · exact ih e he
        · simp only [List.mem_cons] at he
          rcases he with rfl | he
          · rfl
          · exact ih e he
    · simp only [List.mem_cons] at he
      rcases he with rfl | he
      · rfl
      · exact ih e he

theorem logReads_shape (env : Env) (ts : List Token) :
    ∀ e ∈ logReads env ts, e.isReadOrApproval = true := by
  intro e he
  simp only [logReads, List.mem_map] at he
  obtain ⟨t, _, rfl⟩ := he
  rfl

theorem scanNeeding_shape (env : Env) :
    ∀ (plan : List (Token × Int)), ∀ e ∈ (scanNeeding env plan).1,
      e.isReadOrApproval = true ∧ ∀ a : String, e.isApprovalFor a = false := by
  intro plan
  induction plan with
  | nil => intro e he; simp [scanNeeding] at he
  | cons hd rest ih =>
    obtain ⟨t, amt⟩ := hd
    intro e he
    simp only [scanNeeding, List.mem_cons] at he
    rcases he with rfl | he
    · exact ⟨rfl, fun a => rfl⟩
    · exact ih e he

theorem pass2_shape (env : Env) :
    ∀ (need : List (Token × Int)),
      ∀ e ∈ (pass2Approve env need).1, e.isReadOrApproval = true := by
  intro need
  induction need with
  | nil => intro e he; simp [pass2Approve] at he
  | cons hd rest ih =>
    obtain ⟨t, amt⟩ := hd
    intro e he
    simp only [pass2Approve] at he
    split at he
    · simp at he
    · split at he
      · simp only [List.mem_cons] at he
        rcases he with rfl | he
        · rfl
        · exact ih e he
      · exact ih e he

theorem approvalStage_shape (env : Env) (td : List Token) (am : List Int) :
    ∀ e ∈ (approvalStage env td am).1, e.isReadOrApproval = true := by
  intro e he
  simp only [approvalStage] at he
  split at he
  · exact pass1_shape env _ e he
  · simp only [List.mem_append] at he
    rcases he with ((h | h) | h) | h
    · exact pass1_shape env _ e h
    · exact logReads_shape env _ e h
    · exact (scanNeeding_shape env _ e h).1
    · exact pass2_shape env _ e h

theorem isReadOrApproval_not_gas {e : Event} (h : e.isReadOrApproval = true) :
    e.isGasOrSwap = false ∧ e.isQuoteCall = false ∧
      (∀ n, e ≠ .bulkQuoteCall n) ∧
      (∀ a m q, e ≠ .quoteCall a m q) ∧
      (∀ xs ys z, e ≠ .swapTxSubmit xs ys z) := by
  cases e <;> simp_all [Event.isReadOrApproval, Event.isGasOrSwap, Event.isQuoteCall]

theorem quotePhase_shape (env : Env) :
    ∀ (plan : List (Token × Int)), ∀ e ∈ (quotePhase env plan).1,
      ∃ a m q, e = .quoteCall a m q := by
  intro plan
  induction plan with
  | nil => intro e he; simp [quotePhase] at he
  | cons hd rest ih =>
    obtain ⟨t, amt⟩ := hd
    intro e he
    simp only [quotePhase] at he
    split at he
    · simp only [List.mem_singleton] at he
      exact ⟨_, _, _, he⟩
    · simp only [List.mem_cons] at he
      rcases he with rfl | he
      · exact ⟨_, _, _, rfl⟩
      · exact ih e he

theorem quotePhase_error_form (env : Env) :
    ∀ (plan : List (Token × Int)) {e : SwapError},
      (quotePhase env plan).2 = .error e → ∃ s, e = .dustTooSmallToken s := by
  intro plan
  induction plan with
  | nil => intro e h; simp [quotePhase] at h
  | cons hd rest ih =>
    obtain ⟨t, amt⟩ := hd
    intro e h
    simp only [quotePhase] at h
    split at h
    · cases h
      exact ⟨_, rfl⟩
    · split at h
      · cases h
        exact ih (by assumption)
      · cases h

theorem quotePhase_zero_event_error (env : Env) :
    ∀ (plan : List (Token × Int)) {a : String} {m : Int},
      Event.quoteCall a m 0 ∈ (quotePhase env plan).1 →
        ∃ s, (quotePhase env plan).2 = .error (.dustTooSmallToken s) := by
  intro plan
  induction plan with
  | nil => intro a m he; simp [quotePhase] at he
  | cons hd rest ih =>
    obtain ⟨t, amt⟩ := hd
    intro a m he
    simp only [quotePhase] at he ⊢
    split at he
    · rename_i hq
      rw [if_pos hq]
      exact ⟨t.symbol, rfl⟩
    · rename_i hq
      rw [if_neg hq]
      simp only [List.mem_cons] at he
      rcases he with heq | he
      · exact absurd (congrArg (fun ev =>
          match ev with
          | Event.quoteCall _ _ q => q
          | _ => 1) heq) (by simpa using fun h2 => hq h2.symm)
      · obtain ⟨s, hs⟩ := ih he
        rw [hs]
        exact ⟨s, rfl⟩

theorem execStage_shape (env : Env) (addresses : List String) (amounts : List Int)
    (minReceive : Int) :
    ∀ e ∈ (execStage env addresses amounts minReceive).1, e.isGasOrSwap = true := by
  intro e he
  simp only [execStage] at he
  split at he
  · simp at he
  · split at he
    · split at he
      · simp only [List.mem_cons, List.mem_singleton] at he
        rcases he with rfl | rfl | he
        · rfl
        · rfl
        · simp at he
      · simp only [List.mem_singleton] at he
        subst he; rfl
    · simp only [List.mem_singleton] at he
      subst he; rfl

/-! Approval counting in the approval stage. -/

@[simp] theorem isApprovalFor_read (a x : String) (v : Int) :
    Event.isApprovalFor a (.allowanceRead x v) = false := rfl

@[simp] theorem isApprovalFor_tx (a x : String) (amt : Int) :
    Event.isApprovalFor a (.approvalTx x amt) = decide (x = a) := rfl

theorem approvalCount_cons_of_neg {a : String} {e : Event}
    (h : Event.isApprovalFor a e = false) (tr : List Event) :
    approvalCount a (e :: tr) = approvalCount a tr := by
  simp [approvalCount, List.filter_cons, h]

theorem approvalCount_cons_of_pos {a : String} {e : Event}
    (h : Event.isApprovalFor a e = true) (tr : List Event) :
    approvalCount a (e :: tr) = approvalCount a tr + 1 := by
  simp [approvalCount, List.filter_cons, h]

theorem pass1_count_zero_not_mem (env : Env) :
    ∀ (plan : List (Token × Int)) (a : String),
      (∀ tr ∈ plan, tr.1.address ≠ a) →
      approvalCount a (pass1 env plan).1 = 0 := by
  intro plan
  induction plan with
  | nil => intro a _; simp [pass1, approvalCount]
  | cons hd rest ih =>
    obtain ⟨t, required⟩ := hd
    intro a hx
    have hta : t.address ≠ a := hx (t, required) (List.mem_cons_self _ _)
    have hrest : ∀ tr ∈ rest, tr.1.address ≠ a :=
      fun tr htr => hx tr (List.mem_cons_of_mem _ htr)
    simp only [pass1]
    split
    · split
      · simp [approvalCount]
      · split
        · rw [approvalCount_cons_of_neg (by simp),
            approvalCount_cons_of_neg (by simp [Event.isApprovalFor, hta])]
          exact ih a hrest
        · rw [approvalCount_cons_of_neg (by simp)]
          exact ih a hrest
    · rw [approvalCount_cons_of_neg (by simp)]
      exact ih a hrest

theorem pass1_count_le_one (env : Env) :
    ∀ (plan : List (Token × Int)) (a : String),
      (plan.map (fun tr => tr.1.address)).Nodup →
      approvalCount a (pass1 env plan).1 ≤ 1 := by
  intro plan
  induction plan with
  | nil => intro a _; simp [pass1, approvalCount]
  | cons hd rest ih =>
    obtain ⟨t, required⟩ := hd
    intro a hnd
    rw [List.map_cons, List.nodup_cons] at hnd
    simp only [pass1]
    split
    · split
      · simp [approvalCount]
      · rename_i amt1 hok
        split
        · rw [approvalCount_cons_of_neg (by simp)]
          by_cases hta : t.address = a
          · rw [approvalCount_cons_of_pos (by simp [hta])]
            have hz : approvalCount a (pass1 env rest).1 = 0 := by
              refine pass1_count_zero_not_mem env rest a ?_
              intro tr htr hc
              exact hnd.1 (by rw [hta, ← hc]; exact List.mem_map_of_mem _ htr)
            omega
          · rw [approvalCount_cons_of_neg (by simp [hta])]
            exact ih a hnd.2
        · rw [approvalCount_cons_of_neg (by simp)]
          exact ih a hnd.2
    · rw [approvalCount_cons_of_neg (by simp)]
      exact ih a hnd.2

theorem pass1_count_zero_sufficient (env : Env) :
    ∀ (plan : List (Token × Int)) (a : String),
      (∀ tr ∈ plan, tr.1.address = a → tr.2 ≤ env.allowanceRead1 a) →
      approvalCount a (pass1 env plan).1 = 0 := by
  intro plan
  induction plan with
  | nil => intro a _; simp [pass1, approvalCount]
  | cons hd rest ih =>
    obtain ⟨t, required⟩ := hd
    intro a hsuff
    simp only [pass1]
    split
    · rename_i hlt
      have hta : t.address ≠ a := by
        intro hc
        have := hsuff (t, required) (List.mem_cons_self _ _) hc
        rw [hc] at hlt
        omega
      split
      · simp [approvalCount]
      · split
        · rw [approvalCount_cons_of_neg (by simp),
            approvalCount_cons_of_neg (by simp [hta])]
          exact ih a (fun tr htr => hsuff tr (List.mem_cons_of_mem _ htr))
        · rw [approvalCount_cons_of_neg (by simp)]
          exact ih a (fun tr htr => hsuff tr (List.mem_cons_of_mem _ htr))
    · rw [approvalCount_cons_of_neg (by simp)]
      exact ih a (fun tr htr => hsuff tr (List.mem_cons_of_mem _ htr))

/-- The collected `tokensNeedingApproval` list is exactly the plan
filtered by the pass-2 read oracle. -/
theorem scanNeeding_snd (env : Env) :
    ∀ (plan : List (Token × Int)),
      (scanNeeding env plan).2 =
        plan.filter (fun tr => decide (env.allowanceRead2 tr.1.address < tr.2)) := by
  intro plan
  induction plan with
  | nil => rfl
  | cons hd rest ih =>
    obtain ⟨t, amt⟩ := hd
    simp only [scanNeeding, List.filter_cons]
    by_cases hc : env.allowanceRead2 t.address < amt
    · rw [if_pos hc, if_pos (by simpa using hc), ih]
    · rw [if_neg hc, if_neg (by simpa using hc), ih]

theorem pass2_count_zero_not_mem (env : Env) :
    ∀ (need : List (Token × Int)) (a : String),
      (∀ tr ∈ need, tr.1.address ≠ a) →
      approvalCount a (pass2Approve env need).1 = 0 := by
  intro need
  induction need with
  | nil => intro a _; simp [pass2Approve, approvalCount]
  | cons hd rest ih =>
    obtain ⟨t, amt⟩ := hd
    intro a hx
    have hta : t.address ≠ a := hx (t, amt) (List.mem_cons_self _ _)
    have hrest : ∀ tr ∈ rest, tr.1.address ≠ a :=
      fun tr htr => hx tr (List.mem_cons_of_mem _ htr)
    simp only [pass2Approve]
    split
    · simp [approvalCount]
    · split
      · rw [approvalCount_cons_of_neg (by simp [hta])]
        exact ih a hrest
      · exact ih a hrest

theorem pass2_count_le_one (env : Env) :
    ∀ (need : List (Token × Int)) (a : String),
      (need.map (fun tr => tr.1.address)).Nodup →
      approvalCount a (pass2Approve env need).1 ≤ 1 := by
  intro need
  induction need with
  | nil => intro a _; simp [pass2Approve, approvalCount]
  | cons hd rest ih =>
    obtain ⟨t, amt⟩ := hd
    intro a hnd
    rw [List.map_cons, List.nodup_cons] at hnd
    simp only [pass2Approve]
    split
    · simp [approvalCount]
    · split
      · by_cases hta : t.address = a
        · rw [approvalCount_cons_of_pos (by simp [hta])]
          have hz : approvalCount a (pass2Approve env rest).1 = 0 := by
            refine pass2_count_zero_not_mem env rest a ?_
            intro tr htr hc
            exact hnd.1 (by rw [hta, ← hc]; exact List.mem_map_of_mem _ htr)
          omega
        · rw [approvalCount_cons_of_neg (by simp [hta])]
          exact ih a hnd.2
      · exact ih a hnd.2

theorem pass1_approval_event (env : Env) :
    ∀ (plan : List (Token × Int)) {a : String} {amt : Int},
      Event.approvalTx a amt ∈ (pass1 env plan).1 →
      approveTokenSubmitAmount env.dustTokens a 0 = .ok amt := by
  intro plan
  induction plan with
  | nil => intro a amt he; simp [pass1] at he
  | cons hd rest ih =>
    obtain ⟨t, required⟩ := hd
    intro a amt he
    simp only [pass1] at he
    split at he
    · split at he
      · simp at he
      · rename_i amt1 hok
        split at he
        · simp only [List.mem_cons] at he
          rcases he with heq | heq | he
          · cases heq
          · cases heq
            rw [approveTokenSubmitAmount_const env.dustTokens t.address 0 required]
            exact hok
          · exact ih he
        · simp only [List.mem_cons] at he
          rcases he with heq | he
          · cases heq
          · exact ih he
    · simp only [List.mem_cons] at he
      rcases he with heq | he
      · cases heq
      · exact ih he

theorem pass2_approval_event (env : Env) :
    ∀ (need : List (Token × Int)) {a : String} {amt : Int},
      Event.approvalTx a amt ∈ (pass2Approve env need).1 →
      approveTokenSubmitAmount env.dustTokens a 0 = .ok amt := by
  intro need
  induction need with
  | nil => intro a amt he; simp [pass2Approve] at he
  | cons hd rest ih =>
    obtain ⟨t, amt0⟩ := hd
    intro a amt he
    simp only [pass2Approve] at he
    split at he
    · simp at he
    · rename_i amt1 hok
      split at he
      · simp only [List.mem_cons] at he
        rcases he with heq | he
        · cases heq
          rw [approveTokenSubmitAmount_const env.dustTokens t.address 0 (amt0 * 1001 / 1000)]
          exact hok
        · exact ih he
      · exact ih he

theorem logReads_no_approval (env : Env) (ts : List Token)
    {a : String} {amt : Int} (he : Event.approvalTx a amt ∈ logReads env ts) :
    False := by
  simp [logReads, List.mem_map] at he

theorem approvalStage_approval_event (env : Env) (td : List Token) (am : List Int)
    {a : String} {amt : Int}
    (he : Event.approvalTx a amt ∈ (approvalStage env td am).1) :
    approveTokenSubmitAmount env.dustTokens a 0 = .ok amt := by
  simp only [approvalStage] at he
  split at he
  · exact pass1_approval_event env _ he
  · simp only [List.mem_append] at he
    rcases he with ((h | h) | h) | h
    · exact pass1_approval_event env _ h
    · exact absurd h (fun hc => logReads_no_approval env _ hc)
    · have := (scanNeeding_shape env _ _ h).2 a
      simp at this
    · exact pass2_approval_event env _ h

theorem isQuoteCall_not_other {e : Event} (h : e.isQuoteCall = true) :
    (∀ a : String, Event.isApprovalFor a e = false) ∧ e.isGasOrSwap = false ∧
      ∀ n, e ≠ .bulkQuoteCall n := by
  cases e <;> simp_all [Event.isQuoteCall, Event.isGasOrSwap, Event.isApprovalFor]

theorem isGasOrSwap_not_approval {e : Event} (h : e.isGasOrSwap = true) :
    ∀ a : String, Event.isApprovalFor a e = false := by
  cases e <;> simp_all [Event.isGasOrSwap, Event.isApprovalFor]

theorem quoteStage_no_approval (env : Env) (td : List Token) (ad : List String)
    (am : List Int) (a : String) :
    ∀ e ∈ (quoteStage env td ad am).1, Event.isApprovalFor a e = false := by
  intro e he
  simp only [quoteStage] at he
  split at he
  · obtain ⟨x, y, z, rfl⟩ := quotePhase_shape env _ e he
    rfl
  · split at he
    · simp only [List.mem_append] at he
      rcases he with h | h
      · obtain ⟨x, y, z, rfl⟩ := quotePhase_shape env _ e h
        rfl
      · simp only [List.mem_singleton] at h
        subst h
        rfl
    · simp only [List.mem_append] at he
      rcases he with (h | h) | h
      · obtain ⟨x, y, z, rfl⟩ := quotePhase_shape env _ e h
        rfl
      · simp only [List.mem_singleton] at h
        subst h
        rfl
      · exact isGasOrSwap_not_approval (execStage_shape env _ _ _ e h) a

theorem quoteStage_zero_quote (env : Env) (td : List Token) (ad : List String)
    (am : List Int) {a : String} {m : Int}
    (he : Event.quoteCall a m 0 ∈ (quoteStage env td ad am).1) :
    (∃ s, (quoteStage env td ad am).2 = .failed (.dustTooSmallToken s)) ∧
      ∀ e ∈ (quoteStage env td ad am).1, e.isGasOrSwap = false := by
  simp only [quoteStage]
  simp only [quoteStage] at he
  split at he
  · rename_i e2 herr
    obtain ⟨s, hs⟩ := quotePhase_zero_event_error env _ he
    rw [herr] at hs
    cases hs
    refine ⟨⟨s, rfl⟩, ?_⟩
    intro e2 he2
    exact ((isQuoteCall_not_other
      (by obtain ⟨x, y, z, rfl⟩ := quotePhase_shape env _ e2 he2; rfl)).2).1
  · rename_i qs hok
    exfalso
    split at he <;> simp only [List.mem_append] at he
    · rcases he with h | h
      · obtain ⟨s, hs⟩ := quotePhase_zero_event_error env _ h
        rw [hok] at hs
        cases hs
      · simp only [List.mem_singleton] at h
        cases h
    · rcases he with (h | h) | h
      · obtain ⟨s, hs⟩ := quotePhase_zero_event_error env _ h
        rw [hok] at hs
        cases hs
      · simp only [List.mem_singleton] at h
        cases h
      · have := execStage_shape env _ _ _ _ h
        simp [Event.isGasOrSwap] at this

theorem quoteStage_zero_bulk (env : Env) (td : List Token) (ad : List String)
    (am : List Int) (he : Event.bulkQuoteCall 0 ∈ (quoteStage env td ad am).1) :
    (quoteStage env td ad am).2 = .failed .dustTooSmallTotal ∧
      ∀ e ∈ (quoteStage env td ad am).1, e.isGasOrSwap = false := by
  simp only [quoteStage]
  simp only [quoteStage] at he
  split at he
  · exfalso
    obtain ⟨x, y, z, hz⟩ := quotePhase_shape env _ _ he
    cases hz
  · rename_i qs hok
    split at he
    · rename_i hzero
      rw [if_pos hzero]
      refine ⟨rfl, ?_⟩
      intro e he2
      simp only [List.mem_append] at he2
      rcases he2 with h | h
      · exact ((isQuoteCall_not_other
          (by obtain ⟨x, y, z, rfl⟩ := quotePhase_shape env _ e h; rfl)).2).1
      · simp only [List.mem_singleton] at h
        subst h
        rfl
    · exfalso
      rename_i hnz
      simp only [List.mem_append] at he
      rcases he with (h | h) | h
      · obtain ⟨x, y, z, hz⟩ := quotePhase_shape env _ _ h
        cases hz
      · simp only [List.mem_singleton] at h
        injection h with h2
        exact hnz h2.symm
      · have := execStage_shape env _ _ _ _ h
        simp [Event.isGasOrSwap] at this

/-- Strong inversion of a successful per-token build: the balance string
is present, parses to a nonzero finite value, and the computed amount is
the scaled balance minus the guard buffer. -/
theorem computeSafeAmount_ok_strong {t : Token} {amt : Int}
    (h : computeSafeAmount t = .ok amt) :
    ∃ (bf : NumVal) (B : Nat), t.balanceFormatted = some bf ∧
      bf.eqZero = false ∧
      parseUnitsNum bf t.decimals = some ((B : Nat) : Int) ∧
      balanceWeiOf t = some ((B : Nat) : Int) ∧
      amt = ((B : Nat) : Int) - guardBuffer (B : Nat) := by
  unfold computeSafeAmount at h
  split at h
  · cases h
  · rename_i hcond
    rw [Bool.or_eq_true, not_or] at hcond
    split at h
    · cases h
    · rename_i B0 hpu
      obtain ⟨n, rfl⟩ :=
        parseUnitsNum_nonneg (Bool.eq_false_iff.mpr hcond.2) hpu
      cases h
      cases hbf : t.balanceFormatted with
      | none =>
        exfalso
        apply hcond.2
        simp [parsedBalance, hbf, NumVal.leZero] at hcond ⊢
      | some bf =>
        have hpb : parsedBalance t = bf := by simp [parsedBalance, hbf]
        rw [hpb] at hpu hcond
        have hez : bf.eqZero = false := by
          cases bf with
          | fin neg m k =>
            have := hcond.2
            simp [NumVal.leZero] at this
            simp [NumVal.eqZero, this.1]
          | nan => rfl
          | posInf => rfl
          | negInf => rfl
        exact ⟨bf, n, rfl, hez, hpu, by simp only [balanceWeiOf, hpb]; exact hpu, rfl⟩

/-- A plan entry produced by the builder resolves in `approveToken` to
the same token record (the first strict-equality match in the full
snapshot), and the value `approveToken` submits for it is the buffered
full balance, no matter which amount argument is passed; that value is
at least the entry required amount. -/
theorem build_entry_approval (dust : List Token) (sel : List String)
    {a : String} {t : Token} {r : Int}
    (hmem : a ∈ sel)
    (hbe : buildEntry (selectedTokensData dust sel) a = .ok ⟨t, a, r⟩) :
    ∃ B : Nat, balanceWeiOf t = some ((B : Nat) : Int) ∧
      r = ((B : Nat) : Int) - guardBuffer (B : Nat) ∧
      (∀ x : Int,
        approveTokenSubmitAmount dust a x = .ok (((B : Nat) : Int) * 1001 / 1000)) ∧
      r ≤ ((B : Nat) : Int) * 1001 / 1000 := by
  obtain ⟨hfind, _, hcsa⟩ := buildEntry_ok hbe
  dsimp only at hfind hcsa
  obtain ⟨bf, B, hbal, hez, hpu, hbw, hamt⟩ := computeSafeAmount_ok_strong hcsa
  have hfind2 : dust.find? (fun tok => tok.address = a) = some t := by
    rw [← find?_filter_keep (fun tok => sel.contains tok.address)
      (fun tok htok => by simp [htok, hmem])]
    exact hfind
  refine ⟨B, hbw, hamt, ?_, ?_⟩
  · intro x
    simp [approveTokenSubmitAmount, hfind2, hbal, hez, hpu]
  · have hg : 0 < guardBuffer (B : Nat) := guardBuffer_pos (by positivity)
    have hd : ((B : Nat) : Int) ≤ ((B : Nat) : Int) * 1001 / 1000 := by omega
    omega

/-! Plan-level consequences of a successful build. -/

theorem plan_addresses (dust : List Token) (sel : List String) (arrs : BuiltArrays)
    (hb : buildConsistentArrays dust sel = .ok arrs) :
    (arrs.tokenData.zip arrs.amounts).map (fun tr => tr.1.address) = sel := by
  obtain ⟨_, hmap, hlen1, hlen2, _⟩ := build_ok_spec hb
  have h1 : (arrs.tokenData.zip arrs.amounts).map (fun tr : Token × Int => tr.1.address) =
      ((arrs.tokenData.zip arrs.amounts).map Prod.fst).map (·.address) := by
    simp [List.map_map, Function.comp]
  rw [h1, List.map_fst_zip _ _ (by omega), hmap]

theorem plan_entry_spec (dust : List Token) (sel : List String) (arrs : BuiltArrays)
    (hb : buildConsistentArrays dust sel = .ok arrs) :
    ∀ tr ∈ arrs.tokenData.zip arrs.amounts,
      tr.1.address ∈ sel ∧
      buildEntry (selectedTokensData dust sel) tr.1.address =
        .ok ⟨tr.1, tr.1.address, tr.2⟩ := by
  intro tr htr
  obtain ⟨i, hi⟩ := List.mem_iff_get?.mp htr
  obtain ⟨h1, h2⟩ := (List.get?_zip_eq_some _ _ _ _).mp hi
  obtain ⟨_, _, _, _, hpt⟩ := build_ok_spec hb
  obtain ⟨a, ha, haddr, hbe⟩ := hpt i tr.1 tr.2 h1 h2
  constructor
  · rw [haddr]
    exact List.get?_mem ha
  · rw [haddr]
    exact hbe

theorem plan_approval_ge (env : Env) (sel : List String) (arrs : BuiltArrays)
    (hb : buildConsistentArrays env.dustTokens sel = .ok arrs) :
    ∀ tr ∈ arrs.tokenData.zip arrs.amounts, ∀ amt : Int,
      approveTokenSubmitAmount env.dustTokens tr.1.address tr.2 = .ok amt →
        tr.2 ≤ amt := by
  intro tr htr amt hok
  obtain ⟨hmem, hbe⟩ := plan_entry_spec _ _ _ hb tr htr
  obtain ⟨B, _, _, happ, hle⟩ := build_entry_approval _ _ hmem hbe
  rw [happ tr.2] at hok
  cases hok
  exact hle

theorem plan_unique_address (dust : List Token) (sel : List String) (arrs : BuiltArrays)
    (hnd : sel.Nodup)
    (hb : buildConsistentArrays dust sel = .ok arrs)
    {i : Nat} {t : Token} {r : Int}
    (ht : arrs.tokenData.get? i = some t) (hr : arrs.amounts.get? i = some r) :
    ∀ tr ∈ arrs.tokenData.zip arrs.amounts, tr.1.address = t.address → tr.2 = r := by
  intro tr htr haddr
  obtain ⟨j, hj⟩ := List.mem_iff_get?.mp htr
  obtain ⟨hj1, hj2⟩ := (List.get?_zip_eq_some _ _ _ _).mp hj
  obtain ⟨_, hmap, _, _, _⟩ := build_ok_spec hb
  have hmi : (arrs.tokenData.map (·.address)).get? i = some t.address := by
    rw [List.get?_map, ht]
    rfl
  have hmj : (arrs.tokenData.map (·.address)).get? j = some t.address := by
    rw [List.get?_map, hj1]
    simpa using haddr
  have hndm : (arrs.tokenData.map (·.address)).Nodup := by
    rw [hmap]
    exact hnd
  have hij : i = j := by
    apply List.getElem?_inj (List.get?_eq_some.mp hmi).1 hndm
    rw [← List.get?_eq_getElem?, ← List.get?_eq_getElem?, hmi, hmj]
  subst hij
  rw [hj2] at hr
  cases hr
  rfl

/-- Per-token approval counting for the whole approval stage, gated by
the run's read oracles: each of the two approval passes contributes at
most one approval transaction, hence at most two in all; a pass whose
`checkAllowance` read already returns the required amount contributes
none. -/
theorem approvalStage_count (env : Env) (sel : List String) (arrs : BuiltArrays)
    (i : Nat) (t : Token) (r : Int)
    (hnd : sel.Nodup)
    (hb : buildConsistentArrays env.dustTokens sel = .ok arrs)
    (ht : arrs.tokenData.get? i = some t)
    (hr : arrs.amounts.get? i = some r) :
    approvalCount t.address (approvalStage env arrs.tokenData arrs.amounts).1 ≤ 2 ∧
    (r ≤ env.allowanceRead1 t.address → r ≤ env.allowanceRead2 t.address →
      approvalCount t.address (approvalStage env arrs.tokenData arrs.amounts).1 = 0) ∧
    (r ≤ env.allowanceRead2 t.address →
      approvalCount t.address (approvalStage env arrs.tokenData arrs.amounts).1 ≤ 1) := by
  have hndp : ((arrs.tokenData.zip arrs.amounts).map (fun tr => tr.1.address)).Nodup := by
    rw [plan_addresses _ _ _ hb]
    exact hnd
  have huniq := plan_unique_address _ _ _ hnd hb ht hr
  have hsnd := scanNeeding_snd env (arrs.tokenData.zip arrs.amounts)
  have hsub : (scanNeeding env (arrs.tokenData.zip arrs.amounts)).2.Sublist
      (arrs.tokenData.zip arrs.amounts) := by
    rw [hsnd]
    exact List.filter_sublist _
  have hndp2 : ((scanNeeding env (arrs.tokenData.zip arrs.amounts)).2.map
      (fun tr => tr.1.address)).Nodup :=
    List.Nodup.sublist (hsub.map _) hndp
  have c2 : approvalCount t.address (logReads env arrs.tokenData) = 0 := by
    refine approvalCount_eq_zero (fun e he => ?_)
    simp only [logReads, List.mem_map] at he
    obtain ⟨t2, _, rfl⟩ := he
    rfl
  have c3 : approvalCount t.address
      (scanNeeding env (arrs.tokenData.zip arrs.amounts)).1 = 0 :=
    approvalCount_eq_zero (fun e he => (scanNeeding_shape env _ e he).2 _)
  have hp1le : approvalCount t.address
      (pass1 env (arrs.tokenData.zip arrs.amounts)).1 ≤ 1 :=
    pass1_count_le_one env _ _ hndp
  have hp2le : approvalCount t.address
      (pass2Approve env (scanNeeding env (arrs.tokenData.zip arrs.amounts)).2).1 ≤ 1 :=
    pass2_count_le_one env _ _ hndp2
  have hp1z : r ≤ env.allowanceRead1 t.address →
      approvalCount t.address (pass1 env (arrs.tokenData.zip arrs.amounts)).1 = 0 := by
    intro hs
    refine pass1_count_zero_sufficient env _ _ ?_
    intro tr htr haddr
    rw [huniq tr htr haddr]
    exact hs
  have hp2z : r ≤ env.allowanceRead2 t.address →
      approvalCount t.address
        (pass2Approve env (scanNeeding env (arrs.tokenData.zip arrs.amounts)).2).1 = 0 := by
    intro hs
    refine pass2_count_zero_not_mem env _ _ ?_
    intro tr htr hc
    rw [hsnd, List.mem_filter] at htr
    have hlt : env.allowanceRead2 tr.1.address < tr.2 := by simpa using htr.2
    rw [hc, huniq tr htr.1 hc] at hlt
    omega
  refine ⟨?_, ?_, ?_⟩
  · simp only [approvalStage]
    split
    · exact Nat.le_trans hp1le (by omega)
    · rw [approvalCount_append, approvalCount_append, approvalCount_append]
      omega
  · intro hs1 hs2
    simp only [approvalStage]
    split
    · exact hp1z hs1
    · rw [approvalCount_append, approvalCount_append, approvalCount_append]
      have d1 := hp1z hs1
      have d2 := hp2z hs2
      omega
  · intro hs2
    simp only [approvalStage]
    split
    · exact hp1le
    · rw [approvalCount_append, approvalCount_append, approvalCount_append]
      have d2 := hp2z hs2
      omega

/-! The consistency checker on builder output, and run-level reductions. -/

theorem checkAligned_ok : ∀ (ts : List Token) (as_ : List String) (i : Nat),
    (∀ j t a, ts.get? j = some t → as_.get? j = some a → lower t.address = lower a) →
    checkAligned ts as_ i = .ok () := by
  intro ts
  induction ts with
  | nil => intro as_ i _; cases as_ <;> rfl
  | cons t ts ih =>
    intro as_ i hpt
    cases as_ with
    | nil => rfl
    | cons a as2 =>
      simp only [checkAligned]
      rw [if_pos (hpt 0 t a rfl rfl)]
      exact ih as2 (i + 1)
        (fun j t2 a2 h1 h2 => hpt (j + 1) t2 a2 (by simpa using h1) (by simpa using h2))

theorem checkAligned_sound : ∀ (ts : List Token) (as_ : List String) (i : Nat),
    checkAligned ts as_ i = .ok () →
    ∀ j t a, ts.get? j = some t → as_.get? j = some a → lower t.address = lower a := by
  intro ts
  induction ts with
  | nil => intro as_ i _ j t a h1 _; simp at h1
  | cons t0 ts ih =>
    intro as_ i h j t a h1 h2
    cases as_ with
    | nil => simp at h2
    | cons a0 as2 =>
      simp only [checkAligned] at h
      split at h
      · rename_i hlow
        cases j with
        | zero =>
          simp only [List.get?_cons_zero, Option.some_inj] at h1 h2
          subst h1
          subst h2
          exact hlow
        | succ n =>
          exact ih as2 (i + 1) h n t a (by simpa using h1) (by simpa using h2)
      · cases h

theorem validate_build (dust : List Token) (sel : List String) (arrs : BuiltArrays)
    (hb : buildConsistentArrays dust sel = .ok arrs) :
    validateArrayConsistency arrs.tokenData arrs.addresses arrs.amounts = .ok () := by
  obtain ⟨haddr, _, hlen1, hlen2, hpt⟩ := build_ok_spec hb
  unfold validateArrayConsistency
  rw [if_neg (by rw [haddr]; push_neg; omega)]
  refine checkAligned_ok _ _ 0 ?_
  intro j t a h1 h2
  rw [haddr] at h2
  have hj : j < sel.length := (List.get?_eq_some.mp h2).1
  cases hrr : arrs.amounts.get? j with
  | none =>
    exfalso
    have := List.get?_eq_none.mp hrr
    omega
  | some r =>
    obtain ⟨a2, ha2, haddr2, _⟩ := hpt j t r h1 hrr
    rw [ha2] at h2
    cases h2
    rw [haddr2]

theorem validate_sound (tokens : List Token) (addresses : List String)
    (amounts : List Int)
    (h : validateArrayConsistency tokens addresses amounts = .ok ()) :
    tokens.length = addresses.length ∧ addresses.length = amounts.length ∧
    ∀ j t a, tokens.get? j = some t → addresses.get? j = some a →
      lower t.address = lower a := by
  unfold validateArrayConsistency at h
  split at h
  · cases h
  · rename_i hlen
    push_neg at hlen
    exact ⟨hlen.1, hlen.2, checkAligned_sound _ _ 0 h⟩

theorem handleSwap_count_le_stage (env : Env) (sel : List String) (arrs : BuiltArrays)
    (hb : buildConsistentArrays env.dustTokens sel = .ok arrs) (a : String) :
    approvalCount a (handleSwap env sel).trace = 0 ∨
    approvalCount a (handleSwap env sel).trace =
      approvalCount a (approvalStage env arrs.tokenData arrs.amounts).1 := by
  unfold handleSwap
  split
  · left
    simp [approvalCount]
  · split
    · left
      simp [approvalCount]
    · split
      · rename_i e heq
        rw [hb] at heq
        cases heq
      · rename_i arrs2 heq
        rw [hb] at heq
        injection heq with heq2
        subst heq2
        split
        · left
          simp [approvalCount]
        · split
          · right
            rfl
          · split
            · right
              rfl
            · right
              show approvalCount a ((approvalStage env arrs.tokenData arrs.amounts).1 ++
                (quoteStage env arrs.tokenData arrs.addresses _).1) = _
              rw [approvalCount_append,
                approvalCount_eq_zero (quoteStage_no_approval env _ _ _ a)]
              omega

theorem handleSwap_approval_event (env : Env) (sel : List String)
    {a : String} {amt : Int}
    (he : Event.approvalTx a amt ∈ (handleSwap env sel).trace) :
    ∃ arrs, buildConsistentArrays env.dustTokens sel = .ok arrs ∧
      approveTokenSubmitAmount env.dustTokens a 0 = .ok amt := by
  unfold handleSwap at he
  split at he
  · simp at he
  · split at he
    · simp at he
    · split at he
      · simp at he
      · rename_i arrs2 heq
        refine ⟨arrs2, heq, ?_⟩
        split at he
        · simp at he
        · split at he
          · exact approvalStage_approval_event env _ _ he
          · split at he
            · exact approvalStage_approval_event env _ _ he
            · simp only [List.mem_append] at he
              rcases he with h | h
              · exact approvalStage_approval_event env _ _ h
              · have := quoteStage_no_approval env _ _ _ a _ h
                simp at this

/-! Congruence: each stage depends only on the environment fields it
reads, and no stage reads the chain id. -/

theorem pass1_congr {env env' : Env}
    (hd : env.dustTokens = env'.dustTokens) (ha : env.approveOk = env'.approveOk)
    (hr1 : env.allowanceRead1 = env'.allowanceRead1) :
    ∀ (plan : List (Token × Int)), pass1 env plan = pass1 env' plan := by
  intro plan
  induction plan with
  | nil => rfl
  | cons hd2 rest ih =>
    obtain ⟨t, required⟩ := hd2
    simp only [pass1, hd, ha, hr1, ih]

theorem scanNeeding_congr {env env' : Env}
    (hr2 : env.allowanceRead2 = env'.allowanceRead2) :
    ∀ (plan : List (Token × Int)), scanNeeding env plan = scanNeeding env' plan := by
  intro plan
  induction plan with
  | nil => rfl
  | cons hd2 rest ih =>
    obtain ⟨t, amt⟩ := hd2
    simp only [scanNeeding, hr2, ih]

theorem pass2_congr {env env' : Env}
    (hd : env.dustTokens = env'.dustTokens) (ha : env.approveOk = env'.approveOk) :
    ∀ (need : List (Token × Int)), pass2Approve env need = pass2Approve env' need := by
  intro need
  induction need with
  | nil => rfl
  | cons hd2 rest ih =>
    obtain ⟨t, amt⟩ := hd2
    simp only [pass2Approve, hd, ha, ih]

theorem approvalStage_congr {env env' : Env}
    (hd : env.dustTokens = env'.dustTokens) (ha : env.approveOk = env'.approveOk)
    (hr1 : env.allowanceRead1 = env'.allowanceRead1)
    (hrl : env.allowanceReadLog = env'.allowanceReadLog)
    (hr2 : env.allowanceRead2 = env'.allowanceRead2) :
    ∀ td am, approvalStage env td am = approvalStage env' td am := by
  intro td am
  have h1 : pass1 env = pass1 env' :=
    funext fun plan => pass1_congr hd ha hr1 plan
  have hsc : scanNeeding env = scanNeeding env' :=
    funext fun plan => scanNeeding_congr hr2 plan
  have h2 : pass2Approve env = pass2Approve env' :=
    funext fun need => pass2_congr hd ha need
  have hlr : logReads env = logReads env' := by
    funext ts
    simp only [logReads, hrl]
  simp only [approvalStage, h1, hsc, h2, hlr]

theorem quotePhase_congr {env env' : Env} (hq : env.quote = env'.quote) :
    ∀ plan, quotePhase env plan = quotePhase env' plan := by
  intro plan
  induction plan with
  | nil => rfl
  | cons hd2 rest ih =>
    obtain ⟨t, amt⟩ := hd2
    simp only [quotePhase, hq, ih]

theorem execStage_congr {env env' : Env} (hh : env.higherToken = env'.higherToken)
    (hg : env.gasOk = env'.gasOk) (hs : env.swapOk = env'.swapOk) :
    ∀ ad am mr, execStage env ad am mr = execStage env' ad am mr := by
  intro ad am mr
  simp only [execStage, hh, hg, hs]

theorem quoteStage_congr {env env' : Env} (hq : env.quote = env'.quote)
    (hbq : env.bulkQuoteTotal = env'.bulkQuoteTotal)
    (hh : env.higherToken = env'.higherToken)
    (hg : env.gasOk = env'.gasOk) (hs : env.swapOk = env'.swapOk) :
    ∀ td ad am, quoteStage env td ad am = quoteStage env' td ad am := by
  intro td ad am
  have h1 : quotePhase env = quotePhase env' :=
    funext fun plan => quotePhase_congr hq plan
  have h2 : execStage env = execStage env' :=
    funext fun ad2 => funext fun am2 => funext fun mr => execStage_congr hh hg hs ad2 am2 mr
  simp only [quoteStage, hbq, h1, h2]

/-- `handleSwap` reads every environment field except the chain id and
the start-of-run on-chain allowance, which it observes only through the
read oracles. -/
theorem handleSwap_congr (env env' : Env)
    (h1 : env.isConnected = env'.isConnected) (h2 : env.hasRouter = env'.hasRouter)
    (h3 : env.hasAddress = env'.hasAddress) (h4 : env.dustTokens = env'.dustTokens)
    (h5a : env.allowanceRead1 = env'.allowanceRead1)
    (h5b : env.allowanceReadLog = env'.allowanceReadLog)
    (h5c : env.allowanceRead2 = env'.allowanceRead2)
    (h6 : env.approveOk = env'.approveOk)
    (h7 : env.quote = env'.quote) (h8 : env.bulkQuoteTotal = env'.bulkQuoteTotal)
    (h9 : env.higherToken = env'.higherToken) (h10 : env.gasOk = env'.gasOk)
    (h11 : env.swapOk = env'.swapOk) :
    ∀ sel, handleSwap env sel = handleSwap env' sel := by
  intro sel
  have hap : approvalStage env = approvalStage env' :=
    funext fun td => funext fun am => approvalStage_congr h4 h6 h5a h5b h5c td am
  have hqs : quoteStage env = quoteStage env' :=
    funext fun td => funext fun ad => funext fun am => quoteStage_congr h7 h8 h9 h10 h11 td ad am
  simp only [handleSwap, h1, h2, h3, h4, hap, hqs]

/-! Boolean observations on run results, and the concrete runs used by
the claim witnesses and counterexamples. -/

/-- The run ended in a failure state. -/
def Outcome.isFailed : Outcome → Bool
  | .failed _ => true
  | _ => false

/-- The run ended with one of the two dust-too-small failures (a zero
per-token quote or a zero aggregate quote). -/
def Outcome.isDustTooSmall : Outcome → Bool
  | .failed (.dustTooSmallToken _) => true
  | .failed .dustTooSmallTotal => true
  | _ => false

/-- No `executeBulkSwap` interaction in the trace: neither the gas
estimate dry run nor the swap submission. -/
def noExecutorCall (tr : List Event) : Bool :=
  tr.all (fun e => !e.isGasOrSwap)

theorem noExecutorCall_of_forall {tr : List Event}
    (h : ∀ e ∈ tr, e.isGasOrSwap = false) : noExecutorCall tr = true := by
  simp only [noExecutorCall, List.all_eq_true]
  intro e he
  simp [h e he]

/-- A dust token with balance string `"10000"` and 0 decimals. -/
def tokC1 : Token := ⟨"0xa", "TKA", 0, some (.fin false 10000 0)⟩

/-- A run with no prior allowance: the pass-1 read sees 0, the approval
fires, and the later reads of the run observe the mined approval
(10010). -/
def envC1 : Env :=
  { isConnected := true, chainId := 8453, hasRouter := true, hasAddress := true,
    dustTokens := [tokC1], allowance0 := fun _ => 0,
    allowanceRead1 := fun _ => 0, allowanceReadLog := fun _ => 10010,
    allowanceRead2 := fun _ => 10010, approveOk := fun _ => true,
    quote := fun _ _ => 7, bulkQuoteTotal := fun _ _ => 100,
    higherToken := "0xh", gasOk := true, swapOk := true }

/-- A dust token with balance string `"20000"` and 0 decimals. -/
def tokC6 : Token := ⟨"0xa", "TKA", 0, some (.fin false 20000 0)⟩

/-- A run on chain id 1 (neither Base mainnet nor Base Sepolia), with
the allowance already sufficient and every read observing it. -/
def envC6 : Env :=
  { isConnected := true, chainId := 1, hasRouter := true, hasAddress := true,
    dustTokens := [tokC6], allowance0 := fun _ => 20000,
    allowanceRead1 := fun _ => 20000, allowanceReadLog := fun _ => 20000,
    allowanceRead2 := fun _ => 20000, approveOk := fun _ => true,
    quote := fun _ _ => 50, bulkQuoteTotal := fun _ _ => 100,
    higherToken := "0xh", gasOk := true, swapOk := true }

/-- A run with no prior allowance in which neither the logging read nor
the sequential re-check read observes the approval submitted by the
first pass: the re-check reads are stale (the transaction is not yet
mined when the fixed delay elapses) or failed (the `catch` of
`checkAllowance` returns `BigInt(0)`), so both passes approve. -/
def envC2 : Env :=
  { envC6 with
    chainId := 8453
    allowance0 := fun _ => 0
    allowanceRead1 := fun _ => 0
    allowanceReadLog := fun _ => 0
    allowanceRead2 := fun _ => 0 }

/-- A run whose on-chain allowance (20000) already covers the required
amount, but whose pass-1 `checkAllowance` read fails and falls back to
`BigInt(0)`: the first pass approves anyway; the re-check read is
current and the second pass stays quiet. -/
def envC2b : Env :=
  { envC6 with chainId := 8453, allowanceRead1 := fun _ => 0 }

/-- Like `envC6` but on Base with a zero per-token quote. -/
def envC8 : Env := { envC6 with chainId := 8453, quote := fun _ _ => 0 }

/-- Like `envC6` but on Base with a zero aggregate quote. -/
def envC8b : Env := { envC6 with chainId := 8453, bulkQuoteTotal := fun _ _ => 0 }

/-- Like `envC6` but on Base with the HIGHER token address equal (up to
case) to the selected token. -/
def envC10 : Env := { envC6 with chainId := 8453, higherToken := "0xA" }

/-- C3: The on-chain approval amount submitted by `approveToken` is
independent of its `amount` argument: for any token with a positive
parsed balance, the value actually approved is
`parseUnits(token.balanceFormatted, token.decimals) * 1001 / 1000`, so
two calls on the same token state that differ only in the amount
argument submit identical approval values. -/
theorem C3_approval_independent_of_amount
    (dust : List Token) (a : String) (t : Token) (m k : Nat) (x y : Int)
    (hfind : dust.find? (fun tok => tok.address = a) = some t)
    (hbal : t.balanceFormatted = some (.fin false m k))
    (hpos : 0 < m) :
    approveTokenSubmitAmount dust a x = approveTokenSubmitAmount dust a y ∧
    approveTokenSubmitAmount dust a x =
      .ok ((parseUnitsMag m k t.decimals : Int) * 1001 / 1000) := by
  refine ⟨approveTokenSubmitAmount_const dust a x y, ?_⟩
  simp [approveTokenSubmitAmount, hfind, hbal, NumVal.eqZero, parseUnitsNum,
    show m ≠ 0 by omega]

theorem C3_witness :
    approveTokenSubmitAmount [tokC1] "0xa" 5 = approveTokenSubmitAmount [tokC1] "0xa" 77 ∧
    approveTokenSubmitAmount [tokC1] "0xa" 5 =
      .ok ((parseUnitsMag 10000 0 0 : Int) * 1001 / 1000) :=
  C3_approval_independent_of_amount [tokC1] "0xa" tokC1 10000 0 5 77
    (by decide) (by decide) (by decide)

/-- C4: For every selection and snapshot the builder output arrays have
equal length and at every index the token record address equals the
selection address (verbatim, hence case-insensitively); the consistency
checker accepts builder output, and conversely arrays it accepts are
length-aligned and address-aligned, so a violation would abort the run
with an array-consistency error before any transaction is sent. -/
theorem C4_array_consistency (dust : List Token) (sel : List String)
    (arrs : BuiltArrays)
    (hb : buildConsistentArrays dust sel = .ok arrs) :
    (arrs.tokenData.length = arrs.addresses.length ∧
      arrs.addresses.length = arrs.amounts.length) ∧
    arrs.addresses = sel ∧
    (∀ i t a, arrs.tokenData.get? i = some t → arrs.addresses.get? i = some a →
      t.address = a ∧ lower t.address = lower a) ∧
    validateArrayConsistency arrs.tokenData arrs.addresses arrs.amounts = .ok () ∧
    (∀ (td : List Token) (ad : List String) (am : List Int),
      validateArrayConsistency td ad am = .ok () →
        td.length = ad.length ∧ ad.length = am.length ∧
        ∀ j t a, td.get? j = some t → ad.get? j = some a →
          lower t.address = lower a) := by
  obtain ⟨haddr, hmap, hlen1, hlen2, hpt⟩ := build_ok_spec hb
  refine ⟨⟨by rw [haddr]; omega, by rw [haddr]; omega⟩, haddr, ?_, ?_, ?_⟩
  · intro i t a h1 h2
    rw [haddr] at h2
    have hj : i < sel.length := (List.get?_eq_some.mp h2).1
    cases hrr : arrs.amounts.get? i with
    | none =>
      exfalso
      have := List.get?_eq_none.mp hrr
      omega
    | some r =>
      obtain ⟨a2, ha2, haddr2, _⟩ := hpt i t r h1 hrr
      rw [ha2] at h2
      cases h2
      exact ⟨haddr2, by rw [haddr2]⟩
  · exact validate_build dust sel arrs hb
  · exact fun td ad am h => validate_sound td ad am h

theorem C4_witness :
    buildConsistentArrays [tokC1] ["0xa"] = .ok ⟨[tokC1], ["0xa"], [9999]⟩ ∧
    ([tokC1].length = ["0xa"].length ∧ (["0xa"] : List String).length = [(9999 : Int)].length) ∧
    validateArrayConsistency [tokC1] ["0xa"] [9999] = .ok () :=
  ⟨by decide,
   (C4_array_consistency [tokC1] ["0xa"] ⟨[tokC1], ["0xa"], [9999]⟩ (by decide)).1,
   (C4_array_consistency [tokC1] ["0xa"] ⟨[tokC1], ["0xa"], [9999]⟩ (by decide)).2.2.2.1⟩

/-- C5 counterexample: a token with parsed balance 500000 wei.  The
code guard buffer is `500000 / 10000 = 50` (the 100000 wei fallback
applies only when the division is zero), so the computed amount is
499950; the specified `max(balance/10000, fixedMinimumWei)` buffer
would give 400000. -/
theorem C5_counterexample :
    buildConsistentArrays [⟨"0xb", "TKB", 6, some (.fin false 5 1)⟩] ["0xb"] =
      .ok ⟨[⟨"0xb", "TKB", 6, some (.fin false 5 1)⟩], ["0xb"], [499950]⟩ ∧
    guardBuffer 500000 = 50 ∧
    specGuardBuffer 500000 = 100000 ∧
    (499950 : Int) ≠ 500000 - specGuardBuffer 500000 :=
  ⟨by decide, by decide, by decide, by decide⟩

/-- C5 amended: for every selected token with a valid balance the
computed spend amount is `balanceWei - guardBuffer` where the guard
buffer is `balanceWei / 10000` when that quotient is nonzero and the
fixed 100000 wei otherwise (a fallback, not a maximum); the guard
buffer is positive, so `amount < balanceWei` always. -/
theorem C5_amended_guard_buffer (std : List Token) (a : String) (e : PlanEntry)
    (h : buildEntry std a = .ok e) :
    ∃ B : Nat, balanceWeiOf e.token = some ((B : Nat) : Int) ∧
      e.amount = ((B : Nat) : Int) - guardBuffer (B : Nat) ∧
      guardBuffer ((B : Nat) : Int) =
        (if ((B : Nat) : Int) / 10000 = 0 then 100000 else ((B : Nat) : Int) / 10000) ∧
      0 < guardBuffer ((B : Nat) : Int) ∧
      e.amount < ((B : Nat) : Int) := by
  obtain ⟨_, _, hcsa⟩ := buildEntry_ok h
  obtain ⟨B, hbw, hamt⟩ := computeSafeAmount_ok hcsa
  have hg : 0 < guardBuffer ((B : Nat) : Int) := guardBuffer_pos (by positivity)
  exact ⟨B, hbw, hamt, rfl, hg, by omega⟩

theorem C5_amended_witness :
    balanceWeiOf ⟨"0xb", "TKB", 6, some (.fin false 5 1)⟩ = some 500000 ∧
    (499950 : Int) = 500000 - guardBuffer 500000 ∧
    (499950 : Int) < 500000 := by
  obtain ⟨B, hbw, hamt, _, _, hlt⟩ :=
    C5_amended_guard_buffer [⟨"0xb", "TKB", 6, some (.fin false 5 1)⟩] "0xb"
      ⟨⟨"0xb", "TKB", 6, some (.fin false 5 1)⟩, "0xb", 499950⟩ (by decide)
  have hB : ((B : Nat) : Int) = 500000 := by
    have h5 : balanceWeiOf ⟨"0xb", "TKB", 6, some (.fin false 5 1)⟩ = some 500000 := by
      decide
    rw [h5] at hbw
    exact (Option.some_inj.mp hbw).symm
  rw [hB] at hbw hamt hlt
  exact ⟨hbw, hamt, hlt⟩

/-- C7 counterexample: an aggregate quote of 1 passes the nonzero
validation, yet `minReceive = 1 * 90 / 100 = 0`, violating the claimed
invariant `0 < minReceive`. -/
theorem C7_counterexample :
    (1 : Nat) ≠ 0 ∧ minReceiveCalc 1 = 0 ∧ ¬ (0 < minReceiveCalc 1) :=
  ⟨by decide, by decide, by decide⟩

/-- C7 amended: `minReceive = aggregateQuote * 90 / 100`, which equals
the basis-point formula `aggregateQuote * (10000 - 1000) / 10000` at
the 1000 bps default; for every nonzero aggregate quote
`minReceive < aggregateQuote`, the lower bound `0 < minReceive` holds
exactly from aggregate quotes of 2 upward (it fails at 1), and
minReceive is non-decreasing in the aggregate quote. -/
theorem C7_amended_min_receive (q q2 : Nat) :
    minReceiveCalc q = specMinReceive q 1000 ∧
    (q ≠ 0 → minReceiveCalc q < q) ∧
    (2 ≤ q → 0 < minReceiveCalc q) ∧
    (q ≤ q2 → minReceiveCalc q ≤ minReceiveCalc q2) := by
  unfold minReceiveCalc specMinReceive
  refine ⟨by omega, by omega, by omega, by intro h; exact Nat.div_le_div_right (by omega)⟩

theorem C7_amended_witness :
    minReceiveCalc 5 = specMinReceive 5 1000 ∧
    minReceiveCalc 5 < 5 ∧ 0 < minReceiveCalc 5 ∧
    minReceiveCalc 5 ≤ minReceiveCalc 7 :=
  ⟨(C7_amended_min_receive 5 7).1,
   (C7_amended_min_receive 5 7).2.1 (by decide),
   (C7_amended_min_receive 5 7).2.2.1 (by decide),
   (C7_amended_min_receive 5 7).2.2.2 (by decide)⟩

/-- C9 counterexample: a balance string parsing to positive infinity
passes the `isNaN(x) || x <= 0` validation, so the builder fails with
the unit-parse error of `parseUnits`, not with the InvalidBalance
error. -/
theorem C9_counterexample :
    buildConsistentArrays [⟨"0xc", "INF", 18, some .posInf⟩] ["0xc"] =
      .error (.balanceParseError "INF") ∧
    SwapError.balanceParseError "INF" ≠ .invalidBalance "INF" :=
  ⟨by decide, by decide⟩

/-- C9 amended: plan building fails with InvalidBalance exactly when
the parsed balance is zero, negative, NaN or negative infinity; a
balance parsing to positive infinity escapes that check and fails
instead with the unit-parse error; in every such case the build of any
selection resolving to the token yields no plan at all. -/
theorem C9_amended_invalid_balance (t : Token) :
    ((((parsedBalance t).isNaNv || (parsedBalance t).leZero) = true) →
      computeSafeAmount t = .error (.invalidBalance t.symbol)) ∧
    (parsedBalance t = .posInf →
      computeSafeAmount t = .error (.balanceParseError t.symbol)) ∧
    (∀ e0 : SwapError, computeSafeAmount t = .error e0 →
      ∀ (dust : List Token) (sel : List String) (a : String) (arrs : BuiltArrays),
        (selectedTokensData dust sel).find? (fun tok => tok.address = a) = some t →
        buildConsistentArrays dust sel ≠ .ok arrs ∨ a ∉ sel) := by
  refine ⟨?_, ?_, ?_⟩
  · intro hcond
    unfold computeSafeAmount
    rw [if_pos hcond]
  · intro hinf
    unfold computeSafeAmount
    rw [hinf]
    rfl
  · intro e0 herr dust sel a arrs hfind
    by_cases hmem : a ∈ sel
    · left
      intro hok
      obtain ⟨i, hi⟩ := List.mem_iff_get?.mp hmem
      obtain ⟨_, _, hlen1, hlen2, hpt⟩ := build_ok_spec hok
      have hilt : i < sel.length := (List.get?_eq_some.mp hi).1
      cases ht1 : arrs.tokenData.get? i with
      | none =>
        have := List.get?_eq_none.mp ht1
        omega
      | some t1 =>
        cases hr1 : arrs.amounts.get? i with
        | none =>
          have := List.get?_eq_none.mp hr1
          omega
        | some r1 =>
          obtain ⟨a1, ha1, _, hbe⟩ := hpt i t1 r1 ht1 hr1
          rw [hi] at ha1
          cases ha1
          unfold buildEntry at hbe
          rw [hfind] at hbe
          simp only at hbe
          rw [herr] at hbe
          cases hbe
    · right
      exact hmem

theorem C9_amended_witness :
    computeSafeAmount ⟨"0xz", "ZRO", 6, some (.fin false 0 1)⟩ =
      .error (.invalidBalance "ZRO") ∧
    computeSafeAmount ⟨"0xc", "INF", 18, some .posInf⟩ =
      .error (.balanceParseError "INF") ∧
    (buildConsistentArrays [⟨"0xc", "INF", 18, some .posInf⟩] ["0xc"] ≠
      .ok ⟨[], [], []⟩ ∨ "0xc" ∉ (["0xc"] : List String)) :=
  ⟨(C9_amended_invalid_balance ⟨"0xz", "ZRO", 6, some (.fin false 0 1)⟩).1 (by decide),
   (C9_amended_invalid_balance ⟨"0xc", "INF", 18, some .posInf⟩).2.1 (by decide),
   (C9_amended_invalid_balance ⟨"0xc", "INF", 18, some .posInf⟩).2.2
     (.balanceParseError "INF")
     ((C9_amended_invalid_balance ⟨"0xc", "INF", 18, some .posInf⟩).2.1 (by decide))
     [⟨"0xc", "INF", 18, some .posInf⟩] ["0xc"] "0xc" ⟨[], [], []⟩ (by decide)⟩

/-- C1 counterexample: one token with full balance 10000 and zero prior
allowance.  The plan requires 9999; the claim predicts an approval of
`9999 * 1001 / 1000 = 10008`, but the transaction in the run trace
approves 10010 (the buffered full balance `10000 * 1001 / 1000`). -/
theorem C1_counterexample :
    envC1.allowance0 "0xa" = 0 ∧
    buildConsistentArrays envC1.dustTokens ["0xa"] =
      .ok ⟨[tokC1], ["0xa"], [9999]⟩ ∧
    (handleSwap envC1 ["0xa"]).trace =
      [.allowanceRead "0xa" 0, .approvalTx "0xa" 10010,
       .allowanceRead "0xa" 10010, .allowanceRead "0xa" 10010,
       .quoteCall "0xa" 9999 7, .bulkQuoteCall 100,
       .gasEstimateCall, .swapTxSubmit ["0xa"] [9999] 90] ∧
    (9999 : Int) * 1001 / 1000 = 10008 ∧
    (10010 : Int) ≠ 9999 * 1001 / 1000 :=
  ⟨rfl, rfl, by with_unfolding_all rfl, by decide, by decide⟩

/-- C1 amended: for every plan token whose current allowance is below
its required amount, the approval submits exactly
`balanceWei * 1001 / 1000` computed from the full parsed balance — not
`required * 1001 / 1000` — and that value still satisfies the bound
`requiredAmount ≤ approved` and `approved * 1000 ≤ requiredAmount *
1002` (that is, `approved ≤ requiredAmount * 1.002`); every approval
transaction for the token in the run trace carries exactly this
value. -/
theorem C1_amended_approval_amount (env : Env) (sel : List String)
    (arrs : BuiltArrays) (i : Nat) (t : Token) (r : Int)
    (hb : buildConsistentArrays env.dustTokens sel = .ok arrs)
    (ht : arrs.tokenData.get? i = some t)
    (hr : arrs.amounts.get? i = some r)
    (hnn : 0 ≤ env.allowance0 t.address)
    (hlt : env.allowance0 t.address < r) :
    ∃ B : Nat, balanceWeiOf t = some ((B : Nat) : Int) ∧
      (∀ x : Int, approveTokenSubmitAmount env.dustTokens t.address x =
        .ok (((B : Nat) : Int) * 1001 / 1000)) ∧
      r ≤ ((B : Nat) : Int) * 1001 / 1000 ∧
      (((B : Nat) : Int) * 1001 / 1000) * 1000 ≤ r * 1002 ∧
      (∀ amt : Int, Event.approvalTx t.address amt ∈ (handleSwap env sel).trace →
        amt = ((B : Nat) : Int) * 1001 / 1000) := by
  have htr : (t, r) ∈ arrs.tokenData.zip arrs.amounts :=
    List.get?_mem ((List.get?_zip_eq_some _ _ _ _).mpr ⟨ht, hr⟩)
  obtain ⟨hmem, hbe⟩ := plan_entry_spec _ _ _ hb (t, r) htr
  obtain ⟨B, hbw, hamt, happ, hge⟩ := build_entry_approval _ _ hmem hbe
  refine ⟨B, hbw, happ, hge, ?_, ?_⟩
  · by_cases hz : ((B : Nat) : Int) / 10000 = 0
    · exfalso
      have hgb : guardBuffer ((B : Nat) : Int) = 100000 := by
        simp [guardBuffer, hz]
      rw [hgb] at hamt
      omega
    · have hgb : guardBuffer ((B : Nat) : Int) = ((B : Nat) : Int) / 10000 := by
        simp [guardBuffer, hz]
      have hBnn : (0 : Int) ≤ ((B : Nat) : Int) := by positivity
      rw [hgb] at hamt
      omega
  · intro amt hmem2
    obtain ⟨arrs2, _, hsub⟩ := handleSwap_approval_event env sel hmem2
    rw [happ 0] at hsub
    cases hsub
    rfl

theorem C1_amended_witness :
    approveTokenSubmitAmount envC1.dustTokens "0xa" 5 = .ok 10010 ∧
    (9999 : Int) ≤ 10010 ∧ (10010 : Int) * 1000 ≤ 9999 * 1002 := by
  obtain ⟨B, hbw, happ, hge, hbound, _⟩ :=
    C1_amended_approval_amount envC1 ["0xa"] ⟨[tokC1], ["0xa"], [9999]⟩ 0 tokC1 9999
      (by decide) (by decide) (by decide) (by decide) (by decide)
  have hB : ((B : Nat) : Int) = 10000 := by
    have h5 : balanceWeiOf tokC1 = some 10000 := by decide
    rw [h5] at hbw
    exact (Option.some_inj.mp hbw).symm
  have hv : ((B : Nat) : Int) * 1001 / 1000 = 10010 := by
    rw [hB]
    decide
  rw [hv] at happ hge hbound
  exact ⟨happ 5, hge, hbound⟩

/-- C2 counterexample: approvals are gated by the results of the run's
`checkAllowance` reads, not by the actual on-chain allowance.  In
`envC2` the starting allowance is 0 and the sequential re-check's read
does not observe the approval submitted by the first pass (the read is
stale or failed and fell back to `BigInt(0)`), so the run approves the
same token in both passes: two approval transactions in one run.  In
`envC2b` the on-chain allowance (20000) already covers the required
19998, but the first pass's read fails and falls back to `BigInt(0)`,
so an approval is issued anyway.  Both refute the claim that a
sufficient token is never approved and a deficient one at most once. -/
theorem C2_counterexample :
    envC2.allowance0 "0xa" = 0 ∧
    buildConsistentArrays envC2.dustTokens ["0xa"] =
      .ok ⟨[tokC6], ["0xa"], [19998]⟩ ∧
    (handleSwap envC2 ["0xa"]).trace =
      [.allowanceRead "0xa" 0, .approvalTx "0xa" 20020,
       .allowanceRead "0xa" 0, .allowanceRead "0xa" 0,
       .approvalTx "0xa" 20020,
       .quoteCall "0xa" 19998 50, .bulkQuoteCall 100,
       .gasEstimateCall, .swapTxSubmit ["0xa"] [19998] 90] ∧
    approvalCount "0xa" (handleSwap envC2 ["0xa"]).trace = 2 ∧
    (19998 : Int) ≤ envC2b.allowance0 "0xa" ∧
    approvalCount "0xa" (handleSwap envC2b ["0xa"]).trace = 1 :=
  ⟨rfl, rfl, by with_unfolding_all rfl, by with_unfolding_all rfl,
   by decide, by with_unfolding_all rfl⟩

/-- C2 corrected: the run's approval decisions are gated by the results
of its `checkAllowance` reads, not by the on-chain allowance.  For a
duplicate-free selection and each plan token: each of the two approval
passes issues at most one approval transaction for it — hence at most
two in the whole run; the first pass issues none when its read returns
at least the required amount, the second pass none when the re-check
read does, so when both reads return a sufficient value no approval is
issued at all.  Nothing prevents a failed read (the `BigInt(0)`
fallback of `checkAllowance`) or a stale one from triggering a
redundant approval of an already sufficient token, or a second approval
of a token the first pass already approved (`C2_counterexample`). -/
theorem C2_read_gated_approval_bound (env : Env) (sel : List String)
    (arrs : BuiltArrays) (i : Nat) (t : Token) (r : Int)
    (hnd : sel.Nodup)
    (hb : buildConsistentArrays env.dustTokens sel = .ok arrs)
    (ht : arrs.tokenData.get? i = some t)
    (hr : arrs.amounts.get? i = some r) :
    approvalCount t.address (handleSwap env sel).trace ≤ 2 ∧
    (r ≤ env.allowanceRead1 t.address → r ≤ env.allowanceRead2 t.address →
      approvalCount t.address (handleSwap env sel).trace = 0) ∧
    (r ≤ env.allowanceRead2 t.address →
      approvalCount t.address (handleSwap env sel).trace ≤ 1) := by
  obtain h0 | heq := handleSwap_count_le_stage env sel arrs hb t.address
  · exact ⟨by omega, fun _ _ => h0, fun _ => by omega⟩
  · have hst := approvalStage_count env sel arrs i t r hnd hb ht hr
    rw [heq]
    exact hst

theorem C2_amended_witness :
    approvalCount "0xa" (handleSwap envC2 ["0xa"]).trace ≤ 2 ∧
    approvalCount "0xa" (handleSwap envC6 ["0xa"]).trace = 0 ∧
    approvalCount "0xa" (handleSwap envC2b ["0xa"]).trace ≤ 1 :=
  ⟨(C2_read_gated_approval_bound envC2 ["0xa"] ⟨[tokC6], ["0xa"], [19998]⟩ 0 tokC6 19998
      (by decide) (by decide) (by decide) (by decide)).1,
   (C2_read_gated_approval_bound envC6 ["0xa"] ⟨[tokC6], ["0xa"], [19998]⟩ 0 tokC6 19998
      (by decide) (by decide) (by decide) (by decide)).2.1 (by decide) (by decide),
   (C2_read_gated_approval_bound envC2b ["0xa"] ⟨[tokC6], ["0xa"], [19998]⟩ 0 tokC6 19998
      (by decide) (by decide) (by decide) (by decide)).2.2 (by decide)⟩

/-- C6 counterexample: on chain id 1 — which `verifyNetworkAndContract`
rejects — a full pipeline run still performs allowance reads, quotes,
the gas estimate and the swap submission: `handleSwap` never invokes
the verification. -/
theorem C6_counterexample :
    verifyNetworkAndContract envC6.chainId (some "0x6080") = false ∧
    envC6.chainId = 1 ∧
    (handleSwap envC6 ["0xa"]).trace =
      [.allowanceRead "0xa" 20000, .allowanceRead "0xa" 20000,
       .allowanceRead "0xa" 20000, .quoteCall "0xa" 19998 50,
       .bulkQuoteCall 100, .gasEstimateCall,
       .swapTxSubmit ["0xa"] [19998] 90] ∧
    (handleSwap envC6 ["0xa"]).outcome = .submitted :=
  ⟨by decide, rfl, by with_unfolding_all rfl, by with_unfolding_all rfl⟩

/-- C6 amended: `verifyNetworkAndContract` does implement the described
checks — it succeeds exactly on chain ids 8453 or 84532 with nonempty
deployed code — but the pipeline never consults it: `handleSwap` is
independent of the connected chain id, so no check gates the token
interactions. -/
theorem C6_amended_verification_not_gating (chainId : Nat) (code : Option String)
    (env : Env) (sel : List String) (c : Nat) :
    (verifyNetworkAndContract chainId code = true ↔
      ((chainId = 8453 ∨ chainId = 84532) ∧
        ∃ s, code = some s ∧ s ≠ "" ∧ s ≠ "0x")) ∧
    handleSwap { env with chainId := c } sel = handleSwap env sel := by
  constructor
  · constructor
    · intro htrue
      unfold verifyNetworkAndContract at htrue
      split at htrue
      · cases htrue
      · rename_i hch
        rw [not_and_or, not_not, not_not] at hch
        refine ⟨hch, ?_⟩
        split at htrue
        · cases htrue
        · rename_i s
          split at htrue
          · cases htrue
          · rename_i hs
            push_neg at hs
            exact ⟨s, rfl, hs.1, hs.2⟩
    · rintro ⟨hch, s, rfl, hs1, hs2⟩
      rcases hch with rfl | rfl <;>
        simp [verifyNetworkAndContract, hs1, hs2]
  · exact handleSwap_congr { env with chainId := c } env
      rfl rfl rfl rfl rfl rfl rfl rfl rfl rfl rfl rfl rfl sel

theorem C6_amended_witness :
    verifyNetworkAndContract 8453 (some "0x6080") = true ∧
    handleSwap { envC6 with chainId := 77 } ["0xa"] = handleSwap envC6 ["0xa"] :=
  ⟨(C6_amended_verification_not_gating 8453 (some "0x6080") envC6 ["0xa"] 77).1.mpr
     ⟨Or.inl rfl, "0x6080", rfl, by decide, by decide⟩,
   (C6_amended_verification_not_gating 8453 (some "0x6080") envC6 ["0xa"] 77).2⟩

/-- C8: if any per-token quote or the aggregate quote resolves to zero
during a run, the run fails with the corresponding dust-too-small error
and neither the `executeBulkSwap` gas estimate nor the swap submission
happens. -/
theorem C8_zero_quote_aborts (env : Env) (sel : List String) (a : String) (m : Int) :
    (Event.quoteCall a m 0 ∈ (handleSwap env sel).trace →
      (handleSwap env sel).outcome.isDustTooSmall = true ∧
      noExecutorCall (handleSwap env sel).trace = true) ∧
    (Event.bulkQuoteCall 0 ∈ (handleSwap env sel).trace →
      (handleSwap env sel).outcome = .failed .dustTooSmallTotal ∧
      noExecutorCall (handleSwap env sel).trace = true) := by
  constructor
  · intro he
    unfold handleSwap at he ⊢
    split at he
    · simp at he
    · rename_i hc1
      split at he
      · simp at he
      · rename_i hc2
        rw [if_neg hc1, if_neg hc2]
        split at he
        · simp at he
        · split at he
          · simp at he
          · split at he
            · exfalso
              have := approvalStage_shape env _ _ _ he
              simp [Event.isReadOrApproval] at this
            · split at he
              · exfalso
                have := approvalStage_shape env _ _ _ he
                simp [Event.isReadOrApproval] at this
              · simp only [List.mem_append] at he
                rcases he with h | h
                · exfalso
                  have := approvalStage_shape env _ _ _ h
                  simp [Event.isReadOrApproval] at this
                · obtain ⟨⟨s, hs⟩, hgas⟩ := quoteStage_zero_quote env _ _ _ h
                  constructor
                  · show Outcome.isDustTooSmall (quoteStage env _ _ _).2 = true
                    rw [hs]
                    rfl
                  · apply noExecutorCall_of_forall
                    intro e hee
                    simp only [List.mem_append] at hee
                    rcases hee with h2 | h2
                    · exact (isReadOrApproval_not_gas
                        (approvalStage_shape env _ _ _ h2)).1
                    · exact hgas e h2
  · intro he
    unfold handleSwap at he ⊢
    split at he
    · simp at he
    · rename_i hc1
      split at he
      · simp at he
      · rename_i hc2
        rw [if_neg hc1, if_neg hc2]
        split at he
        · simp at he
        · split at he
          · simp at he
          · split at he
            · exfalso
              have := approvalStage_shape env _ _ _ he
              simp [Event.isReadOrApproval] at this
            · split at he
              · exfalso
                have := approvalStage_shape env _ _ _ he
                simp [Event.isReadOrApproval] at this
              · simp only [List.mem_append] at he
                rcases he with h | h
                · exfalso
                  have := approvalStage_shape env _ _ _ h
                  simp [Event.isReadOrApproval] at this
                · obtain ⟨hs, hgas⟩ := quoteStage_zero_bulk env _ _ _ h
                  refine ⟨hs, ?_⟩
                  apply noExecutorCall_of_forall
                  intro e hee
                  simp only [List.mem_append] at hee
                  rcases hee with h2 | h2
                  · exact (isReadOrApproval_not_gas
                      (approvalStage_shape env _ _ _ h2)).1
                  · exact hgas e h2

theorem C8_witness :
    (handleSwap envC8 ["0xa"]).outcome.isDustTooSmall = true ∧
    noExecutorCall (handleSwap envC8 ["0xa"]).trace = true ∧
    (handleSwap envC8b ["0xa"]).outcome = .failed .dustTooSmallTotal ∧
    noExecutorCall (handleSwap envC8b ["0xa"]).trace = true := by
  have h1 := (C8_zero_quote_aborts envC8 ["0xa"] "0xa" 19998).1 (by
    rw [show (handleSwap envC8 ["0xa"]).trace =
      [.allowanceRead "0xa" 20000, .allowanceRead "0xa" 20000,
       .allowanceRead "0xa" 20000, .quoteCall "0xa" 19998 0]
      from by with_unfolding_all rfl]
    simp)
  have h2 := (C8_zero_quote_aborts envC8b ["0xa"] "0xa" 19998).2 (by
    rw [show (handleSwap envC8b ["0xa"]).trace =
      [.allowanceRead "0xa" 20000, .allowanceRead "0xa" 20000,
       .allowanceRead "0xa" 20000, .quoteCall "0xa" 19998 50, .bulkQuoteCall 0]
      from by with_unfolding_all rfl]
    simp)
  exact ⟨h1.1, h1.2, h2.1, h2.2⟩

theorem quoteStage_higher_guard (env : Env) (td : List Token) (ad : List String)
    (am : List Int) (a : String) (hmem : a ∈ ad)
    (hhigher : lower a = lower env.higherToken) :
    (quoteStage env td ad am).2.isFailed = true ∧
    ∀ e ∈ (quoteStage env td ad am).1, e.isGasOrSwap = false := by
  have hany : (ad.any (fun x => lower x = lower env.higherToken)) = true := by
    rw [List.any_eq_true]
    exact ⟨a, hmem, by simp [hhigher]⟩
  simp only [quoteStage]
  split
  · refine ⟨rfl, ?_⟩
    intro e he
    exact ((isQuoteCall_not_other
      (by obtain ⟨x, y, z, rfl⟩ := quotePhase_shape env _ e he; rfl)).2).1
  · split
    · refine ⟨rfl, ?_⟩
      intro e he
      simp only [List.mem_append] at he
      rcases he with h | h
      · exact ((isQuoteCall_not_other
          (by obtain ⟨x, y, z, rfl⟩ := quotePhase_shape env _ e h; rfl)).2).1
      · simp only [List.mem_singleton] at h
        subst h
        rfl
    · have hexec : execStage env ad am
          ((minReceiveCalc (env.bulkQuoteTotal ad am) : Nat) : Int) =
          ([], .failed .higherToHigher) := by
        simp only [execStage]
        rw [if_pos hany]
      rw [hexec]
      refine ⟨rfl, ?_⟩
      intro e he
      simp only [List.mem_append] at he
      rcases he with (h | h) | h
      · exact ((isQuoteCall_not_other
          (by obtain ⟨x, y, z, rfl⟩ := quotePhase_shape env _ e h; rfl)).2).1
      · simp only [List.mem_singleton] at h
        subst h
        rfl
      · simp at h

/-- C10: every pipeline run whose selection contains the HIGHER target
token address (case-insensitively) fails, and neither the
`executeBulkSwap` gas estimate nor the swap submission happens. -/
theorem C10_higher_token_guard (env : Env) (sel : List String) (a : String)
    (hconn : env.isConnected = true)
    (hmem : a ∈ sel)
    (hhigher : lower a = lower env.higherToken) :
    (handleSwap env sel).outcome.isFailed = true ∧
    noExecutorCall (handleSwap env sel).trace = true := by
  unfold handleSwap
  split
  · rename_i hcond
    exfalso
    simp only [hconn, Bool.not_true, Bool.false_or] at hcond
    rw [List.isEmpty_iff] at hcond
    subst hcond
    simp at hmem
  · split
    · exact ⟨rfl, rfl⟩
    · split
      · exact ⟨rfl, rfl⟩
      · rename_i arrs heqb
        split
        · exact ⟨rfl, rfl⟩
        · split
          · refine ⟨rfl, noExecutorCall_of_forall ?_⟩
            intro e hee
            exact (isReadOrApproval_not_gas (approvalStage_shape env _ _ _ hee)).1
          · split
            · refine ⟨rfl, noExecutorCall_of_forall ?_⟩
              intro e hee
              exact (isReadOrApproval_not_gas (approvalStage_shape env _ _ _ hee)).1
            · have haddr : arrs.addresses = sel := (build_ok_spec heqb).1
              have hmem2 : a ∈ arrs.addresses := by
                rw [haddr]
                exact hmem
              obtain ⟨hfail, hgas⟩ :=
                quoteStage_higher_guard env arrs.tokenData arrs.addresses _ a hmem2 hhigher
              refine ⟨hfail, noExecutorCall_of_forall ?_⟩
              intro e hee
              simp only [List.mem_append] at hee
              rcases hee with h2 | h2
              · exact (isReadOrApproval_not_gas (approvalStage_shape env _ _ _ h2)).1
              · exact hgas e h2

set_option maxHeartbeats 1000000 in
theorem C10_witness :
    (handleSwap envC10 ["0xa"]).outcome.isFailed = true ∧
    noExecutorCall (handleSwap envC10 ["0xa"]).trace = true :=
  C10_higher_token_guard envC10 ["0xa"] "0xa" (by decide) (by decide)
    (by with_unfolding_all rfl)

end HigherDust
